import Mathlib

/-!
# A shallow embedding of `ls-l` (amezin/ls-l)

The program lists the current directory in long format.  Three C files are embedded:

* `unique.c`  : `unique`, in-place compaction of adjacent equal elements;
* `readdir.c` : `directory_entries_read_open` / `directory_entries_read`, the entry collector;
* `ls-l.c`    : the comparators, `div_round`, `block_size_convert`, `format_mtime` and `main`.

Conventions.

* A C string is a `String`, one `Char` per byte, without its terminator.  A `char *` that may be
  `NULL` is an `Option String`.
* A C array is a `List`; pointers into an array are offsets.
* `uintmax_t` arithmetic is arithmetic on `Nat` reduced modulo `2 ^ 64`.  Sizes, link counts,
  identifiers and block counts are the non-negative values `lstat` reports.
* System and library calls (`readdir`, `lstat`, `stat`, `getpwuid`, `getgrgid`, `time`,
  `localtime_r`, `strftime`, `strcoll`, `strmode`, `readlink`, and whether an allocation
  succeeds) are fields of the record `Sys`: the program is a function of their answers.
  `qsort` and `bsearch` are given by a reference implementation.
* Standard output is the list of lines written.  A line is `none` when `fprintf` was handed a
  `NULL` pointer for a `%s` conversion, which C leaves undefined.
* Every allocation can fail.  Those of the entry collector are numbered by `Sys.alloc_ok`,
  the `calloc` and `strdup` calls of `main` by `Sys.main_alloc_ok`, and the `realloc` of the
  link target buffer is answered by `Sys.realloc_ok`.
-/

namespace LsL

/-! ## `unique.c` -/

/-- Loop state of `unique` (unique.c): the buffer, the write cursor `out` and the
pointer `prev_out` (byte offsets from `buf`, `none` is `NULL`), and `out_count`. -/
structure unique_state (α : Type) where
  buf : List α
  out : Nat
  prev_out : Option Nat
  out_count : Nat

/-- Element stored at byte offset `off` of a buffer of `size`-byte elements. -/
def elem_at {α : Type} (buf : List α) (size off : Nat) : Option α :=
  buf[off / size]?

/-- The call `memcpy(out, in, size)`: the element at offset `src` overwrites the one at `dst`. -/
def memcpy_elem {α : Type} (buf : List α) (size dst src : Nat) : List α :=
  match elem_at buf size src with
  | some x => buf.set (dst / size) x
  | none => buf

/-- One iteration of the `for` loop of `unique`, with `in` at byte offset `inp`. -/
def unique_step {α : Type} (size : Nat) (cmp : α → α → Int) (inp : Nat)
    (s : unique_state α) : unique_state α :=
  let skip : Bool :=
    match s.prev_out with
    | some p =>
      match elem_at s.buf size p, elem_at s.buf size inp with
      | some a, some b => decide (cmp a b = 0)
      | _, _ => false
    | none => false
  if skip then s
  else
    { buf := if s.out ≠ inp then memcpy_elem s.buf size s.out inp else s.buf
      out := s.out + size
      prev_out := some s.out
      out_count := s.out_count + 1 }

/-- The loop `for (in = buf; in < end; in += size)`; `fuel` bounds the number of iterations. -/
def unique_loop {α : Type} (size : Nat) (cmp : α → α → Int) (endp : Nat) :
    Nat → Nat → unique_state α → unique_state α
  | 0, _, s => s
  | fuel + 1, inp, s =>
    if inp < endp then unique_loop size cmp endp fuel (inp + size) (unique_step size cmp inp s)
    else s

/-- Function `unique(buf, n, size, cmp)`: returns `out_count` and the buffer after the call. -/
def unique {α : Type} (buf : List α) (n size : Nat) (cmp : α → α → Int) : Nat × List α :=
  let s := unique_loop size cmp (n * size) (n + 1) 0
    { buf := buf, out := 0, prev_out := none, out_count := 0 }
  (s.out_count, s.buf)

/-! ### Specification side of `unique` -/

/-- Adjacent compaction: keep an element unless it compares equal to the last kept one. -/
def compact {α : Type} (cmp : α → α → Int) : Option α → List α → List α
  | _, [] => []
  | none, x :: xs => x :: compact cmp (some x) xs
  | some p, x :: xs =>
    if cmp p x = 0 then compact cmp (some p) xs else x :: compact cmp (some x) xs

/-- Value of `prev_out` when the kept prefix is `ys`. -/
def prev_ptr {α : Type} (ys : List α) (size : Nat) : Option Nat :=
  if ys.length = 0 then none else some ((ys.length - 1) * size)

/-- Consistency of a three-way comparator (what `qsort`, `bsearch` and `unique` expect):
the signs are antisymmetric and `cmp a b ≤ 0` is transitive. -/
structure cmp_consistent {α : Type} (cmp : α → α → Int) : Prop where
  antisymm : ∀ a b, cmp a b < 0 ↔ 0 < cmp b a
  trans : ∀ a b c, cmp a b ≤ 0 → cmp b c ≤ 0 → cmp a c ≤ 0

/-- A comparator read as the relation `cmp a b ≤ 0` is a total preorder. -/
structure total_preorder {α : Type} (cmp : α → α → Int) : Prop where
  total : ∀ a b, cmp a b ≤ 0 ∨ cmp b a ≤ 0
  trans : ∀ a b c, cmp a b ≤ 0 → cmp b c ≤ 0 → cmp a c ≤ 0

/-- Elements of a list that have no `cmp`-equal element before them (`seen` holds the
elements already passed). -/
def class_firsts_from {α : Type} (cmp : α → α → Int) : List α → List α → List α
  | _, [] => []
  | seen, x :: xs =>
    if seen.all (fun y => decide (cmp y x ≠ 0)) then x :: class_firsts_from cmp (x :: seen) xs
    else class_firsts_from cmp (x :: seen) xs

/-- The first-occurring element of every `cmp`-equivalence class, in input order. -/
def class_firsts {α : Type} (cmp : α → α → Int) (xs : List α) : List α :=
  class_firsts_from cmp [] xs

/-- Number of distinct `cmp`-equivalence classes met in a list. -/
def class_count {α : Type} (cmp : α → α → Int) (xs : List α) : Nat :=
  (class_firsts cmp xs).length

/-! ## Data model (`readdir.h`) and the system interface -/

/-- The fields of `struct stat` the program reads (`st_mtim` is `st_mtim.tv_sec`). -/
structure stat where
  st_mode : Nat
  st_nlink : Nat
  st_uid : Nat
  st_gid : Nat
  st_size : Nat
  st_blocks : Nat
  st_mtim : Int
  deriving DecidableEq, Repr

/-- The status left by `memset(&entry->stat, 0, sizeof(entry->stat))`. -/
def stat_zero : stat :=
  { st_mode := 0, st_nlink := 0, st_uid := 0, st_gid := 0, st_size := 0, st_blocks := 0,
    st_mtim := 0 }

/-- Record `struct directory_entry`. -/
structure directory_entry where
  stat : LsL.stat
  stat_ok : Bool
  is_dir : Bool
  name : String
  deriving DecidableEq, Repr

/-- Record `struct directory_entry_array`; `entries` holds the `n` slots in use. -/
structure directory_entry_array where
  n : Nat
  entries : List directory_entry
  deriving DecidableEq, Repr

/-- An open directory stream: the names `readdir` hands out, and whether the `NULL` that ends
them comes with `errno` set. -/
structure DIR where
  dirents : List String
  read_error : Bool

/-- Broken-down time, as filled by `localtime_r`. -/
structure tm where
  tm_min : Nat
  tm_hour : Nat
  tm_mday : Nat
  tm_mon : Nat
  tm_year : Int
  deriving DecidableEq, Repr

/-- Answers of the operating system and the C library. -/
structure Sys where
  /-- Result of `opendir(".")`, `none` for `NULL`. -/
  opendir : Option DIR
  /-- Whether `closedir` returns `0`. -/
  closedir_ok : Bool
  /-- Result of `lstat(name, &st)`, `none` when it does not return `0`. -/
  lstat : String → Option stat
  /-- Result of `stat(name, &st)`, which follows symbolic links. -/
  stat : String → Option LsL.stat
  /-- Whether the `k`-th allocation made by the entry collector returns non-`NULL`. -/
  alloc_ok : Nat → Bool
  /-- Result of `time(&now)`, `none` for `(time_t)-1`. -/
  time : Option Int
  /-- Result of `localtime_r`, `none` for `NULL`. -/
  localtime_r : Int → Option tm
  /-- Text `strftime` produces for a format, when the buffer is large enough. -/
  strftime_text : String → tm → String
  /-- Locale collation. -/
  strcoll : String → String → Int
  /-- Result of `getpwuid(uid)->pw_name`, `none` when `getpwuid` returns `NULL`. -/
  getpwuid : Nat → Option String
  /-- Result of `getgrgid(gid)->gr_name`, `none` when `getgrgid` returns `NULL`. -/
  getgrgid : Nat → Option String
  /-- Text written by `strmode(mode, buf)` of libbsd. -/
  strmode : Nat → String
  /-- Bytes `readlink(name, buf, bufsiz)` stores, `none` when it returns a negative value. -/
  readlink : String → Nat → Option String
  /-- Whether the `realloc` made while rendering entry `i` returns non-`NULL`. -/
  realloc_ok : Nat → Bool
  /-- Whether the `k`-th `calloc` or `strdup` call made by `main` returns non-`NULL`. -/
  main_alloc_ok : Nat → Bool

/-! ### File type macros of `<sys/stat.h>` (Linux values) -/

def S_IFMT : Nat := 0o170000
def S_IFDIR : Nat := 0o040000
def S_IFLNK : Nat := 0o120000

def S_ISDIR (m : Nat) : Bool := (m &&& S_IFMT) == S_IFDIR
def S_ISLNK (m : Nat) : Bool := (m &&& S_IFMT) == S_IFLNK

/-- Character `s[i]` of a C string: past the end sits the terminator. -/
def c_char_at (s : String) (i : Nat) : Char :=
  s.data.getD i (Char.ofNat 0)

/-! ## `readdir.c` -/

/-- Function `directory_entries_init`. -/
def directory_entries_init : directory_entry_array :=
  { n := 0, entries := [] }

/-- The entry built for one name: the body of the loop of `directory_entries_read_open`
from `memcpy(entry->name, ...)` to the end of the `if (entry->stat_ok)` statement. -/
def read_entry (sys : Sys) (d_name : String) : directory_entry :=
  match sys.lstat d_name with
  | some st =>
    let is_dir := S_ISDIR st.st_mode
    let is_dir :=
      if S_ISLNK st.st_mode then
        match sys.stat d_name with
        | some resolved_stat => S_ISDIR resolved_stat.st_mode
        | none => is_dir
      else is_dir
    { stat := st, stat_ok := true, is_dir := is_dir, name := d_name }
  | none => { stat := stat_zero, stat_ok := false, is_dir := false, name := d_name }

/-- The `for (;;)` loop of `directory_entries_read_open` over the names still to be read.
`allocs` counts the allocations made so far. -/
def read_loop (sys : Sys) (read_error : Bool) :
    List String → Nat → Nat → directory_entry_array → Bool × directory_entry_array
  | [], _, _, arr => if read_error then (false, arr) else (true, arr)
  | d_name :: rest, capacity, allocs, arr =>
    if c_char_at d_name 0 = '.' then read_loop sys read_error rest capacity allocs arr
    else if !sys.alloc_ok allocs then (false, arr)
    else
      let entry := read_entry sys d_name
      if arr.n = capacity then
        let new_capacity := if capacity > 0 then capacity * 2 else 1
        if !sys.alloc_ok (allocs + 1) then (false, arr)
        else
          read_loop sys read_error rest new_capacity (allocs + 2)
            { n := arr.n + 1, entries := arr.entries ++ [entry] }
      else
        read_loop sys read_error rest capacity (allocs + 1)
          { n := arr.n + 1, entries := arr.entries ++ [entry] }

/-- Function `directory_entries_read_open(dir, arr)`: the return value and the array. -/
def directory_entries_read_open (sys : Sys) (dir : DIR) (arr : directory_entry_array) :
    Bool × directory_entry_array :=
  read_loop sys dir.read_error dir.dirents arr.n 0 arr

/-- Function `directory_entries_read(arr)`. -/
def directory_entries_read (sys : Sys) (arr : directory_entry_array) :
    Bool × directory_entry_array :=
  match sys.opendir with
  | none => (false, arr)
  | some dir =>
    let res := directory_entries_read_open sys dir arr
    if !sys.closedir_ok then (false, res.2) else res

/-! ## C library routines given by a reference implementation -/

/-- Library routine `qsort(base, nmemb, size, cmp)`: the first `nmemb` elements are put in
non-decreasing order (an insertion sort stands for the library's algorithm). -/
def qsort {α : Type} (base : List α) (nmemb : Nat) (cmp : α → α → Int) : List α :=
  (base.take nmemb).insertionSort (fun a b => cmp a b ≤ 0) ++ base.drop nmemb

/-- The search loop of `bsearch` on the index range `[l, u)`. -/
def bsearch_loop {α : Type} (key : α) (base : List α) (cmp : α → α → Int) :
    Nat → Nat → Nat → Option Nat
  | 0, _, _ => none
  | fuel + 1, l, u =>
    if l < u then
      let idx := (l + u) / 2
      match base[idx]? with
      | none => none
      | some p =>
        let comparison := cmp key p
        if comparison < 0 then bsearch_loop key base cmp fuel l idx
        else if comparison > 0 then bsearch_loop key base cmp fuel (idx + 1) u
        else some idx
    else none

/-- Library routine `bsearch(key, base, nmemb, size, cmp)`: the index of the element found,
`none` for `NULL`. -/
def bsearch {α : Type} (key : α) (base : List α) (nmemb : Nat) (cmp : α → α → Int) :
    Option Nat :=
  bsearch_loop key base cmp (nmemb + 1) 0 nmemb

/-- Conversion `%ju` of `printf`. -/
def fmt_ju (x : Nat) : String := Nat.repr x

/-- Minimum field width of `printf` (`%*s`, `%*ju`): blanks on the left up to `width`. -/
def pad_left (width : Nat) (s : String) : String :=
  String.mk (List.replicate (width - s.length) (Char.ofNat 32)) ++ s

/-! ## `ls-l.c` -/

def OUTPUT_BLOCK_SIZE : Nat := 1024
def STRMODE_COLUMN_SIZE : Nat := 10
def EXIT_SUCCESS : Nat := 0
def EXIT_FAILURE : Nat := 1

/-- Number of values of `uintmax_t`. -/
def UINTMAX_RANGE : Nat := 2 ^ 64

/-- Function `uid_cmp`, on the values pointed to. -/
def uid_cmp (a b : Nat) : Int :=
  if a = b then 0 else if a < b then -1 else 1

/-- Function `gid_cmp`, on the values pointed to. -/
def gid_cmp (a b : Nat) : Int :=
  if a = b then 0 else if a < b then -1 else 1

/-- Function `entry_cmp`, on the entries pointed to. -/
def entry_cmp (strcoll : String → String → Int) (a b : directory_entry) : Int :=
  if a.is_dir ≠ b.is_dir then
    if a.is_dir then -1 else 1
  else strcoll a.name b.name

/-- Function `div_round` on `uintmax_t`. -/
def div_round (value divisor : Nat) : Nat :=
  if value % divisor ≥ divisor / 2 + divisor % 2 then (value / divisor + 1) % UINTMAX_RANGE
  else value / divisor

/-- Function `block_size_convert`; `S_BLKSIZE` is the constant of `<sys/stat.h>`. -/
def block_size_convert (S_BLKSIZE : Nat) (value : Nat) : Nat :=
  if S_BLKSIZE < OUTPUT_BLOCK_SIZE then div_round value (OUTPUT_BLOCK_SIZE / S_BLKSIZE)
  else (value * (S_BLKSIZE / OUTPUT_BLOCK_SIZE)) % UINTMAX_RANGE

def half_year : Nat := 31556952 / 2
def recent_format : String := "%b %e %H:%M"
def old_format : String := "%b %e  %Y"

/-- Library routine `difftime(time1, time0)` on whole seconds.  The `double` it returns is
the difference rounded to nearest, which compares with `0` and with `half_year` as the
difference itself does. -/
def difftime (time1 time0 : Int) : Int := time1 - time0

/-- Library routine `strftime(buf, size, format, tm)`: `none` when it returns `0`, that is
when the text and its terminator do not fit in `size` bytes or the text is empty. -/
def strftime (sys : Sys) (out_buf_size : Nat) (format : String) (t : tm) : Option String :=
  let text := sys.strftime_text format t
  if text.length = 0 ∨ out_buf_size ≤ text.length then none else some text

/-- The variable `format` of `format_mtime`. -/
def select_format (mtime now : Int) : String :=
  let dt := difftime now mtime
  if dt ≥ 0 ∧ dt < half_year then recent_format else old_format

/-- Function `format_mtime`: `none` for `false`, else the text left in `out_buf`. -/
def format_mtime (sys : Sys) (mtime : Int) (out_buf_size : Nat) (now : Int) : Option String :=
  let format := select_format mtime now
  match sys.localtime_r mtime with
  | none => none
  | some t => strftime sys out_buf_size format t

/-- Variables of `main` updated by its first loop over the entries. -/
structure scan_state where
  mtimes : List String
  uids : List Nat
  gids : List Nat
  n_uids_gids : Nat
  nlink_column_width : Nat
  size_column_width : Nat
  mtime_column_width : Nat
  total_blocks : Nat
  deriving DecidableEq, Repr

/-- Values of those variables before the loop. -/
def scan_init : scan_state :=
  { mtimes := [], uids := [], gids := [], n_uids_gids := 0, nlink_column_width := 1,
    size_column_width := 1, mtime_column_width := 1, total_blocks := 0 }

/-- Contents of `mtime_buffer` once the first `if` of the loop body has run. -/
def mtime_text (sys : Sys) (now : Int) (entry : directory_entry) : String :=
  if !entry.stat_ok then "?"
  else
    match format_mtime sys entry.stat.st_mtim 256 now with
    | some text => text
    | none => "?"

/-- One iteration of the first loop of `main`.  The arrays `mtimes`, `uids` and `gids` are
given by their filled part: `mtimes[i]`, `uids[n_uids_gids]` and `gids[n_uids_gids]` are the
next free slots. -/
def scan_entry (sys : Sys) (now : Int) (s : scan_state) (entry : directory_entry) :
    scan_state :=
  let mtime_buffer := mtime_text sys now entry
  let mtime_len := mtime_buffer.length
  let s1 : scan_state :=
    { s with
      mtimes := s.mtimes ++ [mtime_buffer]
      mtime_column_width :=
        if mtime_len > s.mtime_column_width then mtime_len else s.mtime_column_width }
  if !entry.stat_ok then s1
  else
    let nlink_width := (fmt_ju entry.stat.st_nlink).length
    let size_width := (fmt_ju entry.stat.st_size).length
    { s1 with
      uids := s1.uids ++ [entry.stat.st_uid]
      gids := s1.gids ++ [entry.stat.st_gid]
      nlink_column_width :=
        if nlink_width > s1.nlink_column_width then nlink_width else s1.nlink_column_width
      size_column_width :=
        if size_width > s1.size_column_width then size_width else s1.size_column_width
      n_uids_gids := s1.n_uids_gids + 1
      total_blocks := (s1.total_blocks + entry.stat.st_blocks) % UINTMAX_RANGE }

/-- The first loop of `main`. -/
def scan_entries (sys : Sys) (now : Int) (entries : List directory_entry) : scan_state :=
  entries.foldl (scan_entry sys now) scan_init

/-- One iteration of a name resolution loop of `main`: the arrays `uid_names` (resp.
`gid_names`) and `max_uid_name` (resp. `max_gid_name`). -/
def resolve_step (lookup : Nat → Option String) (acc : List (Option String) × Nat) (id : Nat) :
    List (Option String) × Nat :=
  match lookup id with
  | some name => (acc.1 ++ [some name], if name.length > acc.2 then name.length else acc.2)
  | none => (acc.1 ++ [none], acc.2)

/-- A name resolution loop of `main` over the first `n` identifiers: the array of names,
`none` for a slot left `NULL` by `calloc`, and the widest name, at least `1`. -/
def resolve_names (lookup : Nat → Option String) (ids : List Nat) (n : Nat) :
    List (Option String) × Nat :=
  (ids.take n).foldl (resolve_step lookup) ([], 1)

/-- What the first loop, the two sorts and compactions and the two resolution loops leave. -/
structure layout where
  mtimes : List String
  nlink_column_width : Nat
  size_column_width : Nat
  mtime_column_width : Nat
  total_blocks : Nat
  uids : List Nat
  n_uids : Nat
  uid_names : List (Option String)
  max_uid_name : Nat
  gids : List Nat
  n_gids : Nat
  gid_names : List (Option String)
  max_gid_name : Nat
  deriving DecidableEq, Repr

/-- The values lines 150-276 of `main` compute when `time` answers `now` and no allocation
fails (`prepare` below adds the calls that can fail). -/
def compute_layout (sys : Sys) (now : Int) (entries : List directory_entry) : layout :=
  let sc := scan_entries sys now entries
  let uids := qsort sc.uids sc.n_uids_gids uid_cmp
  let ru := unique uids sc.n_uids_gids 4 uid_cmp
  let un := resolve_names sys.getpwuid ru.2 ru.1
  let gids := qsort sc.gids sc.n_uids_gids gid_cmp
  let rg := unique gids sc.n_uids_gids 4 gid_cmp
  let gn := resolve_names sys.getgrgid rg.2 rg.1
  { mtimes := sc.mtimes
    nlink_column_width := sc.nlink_column_width
    size_column_width := sc.size_column_width
    mtime_column_width := sc.mtime_column_width
    total_blocks := sc.total_blocks
    uids := ru.2, n_uids := ru.1, uid_names := un.1, max_uid_name := un.2
    gids := rg.2, n_gids := rg.1, gid_names := gn.1, max_gid_name := gn.2 }

/-- The `total` line; `S_BLKSIZE` is the constant of `<sys/stat.h>`. -/
def total_line (S_BLKSIZE : Nat) (total_blocks : Nat) : String :=
  "total " ++ fmt_ju (block_size_convert S_BLKSIZE total_blocks) ++ "\n"

/-- The name found for an identifier while rendering: the `bsearch` in the compacted array
and the read of the name slot.  The result is the C pointer, `none` for `NULL`. -/
def lookup_name (stat_ok : Bool) (key : Nat) (ids : List Nat) (n_ids : Nat)
    (names : List (Option String)) (cmp : Nat → Nat → Int) : Option String :=
  if stat_ok then
    match bsearch key ids n_ids cmp with
    | some idx => (names[idx]?).join
    | none => some "?"
  else some "?"

/-- The link target buffer: its bytes (no byte when the pointer is `NULL`) and
`readlink_buf_capacity`. -/
structure link_buf where
  readlink_buf : List Char
  readlink_buf_capacity : Nat
  deriving DecidableEq, Repr

/-- The buffer before the second loop: `readlink_buf = NULL`, capacity `0`. -/
def link_buf_init : link_buf :=
  { readlink_buf := [], readlink_buf_capacity := 0 }

/-- The C string that starts a buffer. -/
def c_str (buf : List Char) : String :=
  String.mk (buf.takeWhile (fun c => c ≠ Char.ofNat 0))

/-- Bytes of the buffer after `readlink` stored `r` at its start. -/
def store_bytes (buf : List Char) (r : String) : List Char :=
  r.data ++ buf.drop r.length

/-- The growth attempt of the link target buffer (lines 317-323 of `main`); bytes gained by
a `realloc` are indeterminate and read here as zero. -/
def grow_link_buf (realloc_ok : Bool) (st_size : Nat) (b : link_buf) : link_buf :=
  if b.readlink_buf_capacity < st_size + 1 then
    if realloc_ok then
      { readlink_buf :=
          b.readlink_buf ++ List.replicate (st_size + 1 - b.readlink_buf_capacity) (Char.ofNat 0)
        readlink_buf_capacity := st_size + 1 }
    else b
  else b

/-- Lines 325-331 of `main`: the `readlink` call, guarded by the capacity test, the write of
the terminator at `readlink_buf[link_len]`, and the pointer `link`. -/
def read_into (sys : Sys) (entry : directory_entry) (b : link_buf) : link_buf × Option String :=
  if b.readlink_buf_capacity > entry.stat.st_size then
    match sys.readlink entry.name (b.readlink_buf_capacity - 1) with
    | some r =>
      ({ readlink_buf := (store_bytes b.readlink_buf r).set r.length (Char.ofNat 0)
         readlink_buf_capacity := b.readlink_buf_capacity },
        some (c_str ((store_bytes b.readlink_buf r).set r.length (Char.ofNat 0))))
    | none => (b, some "?")
  else (b, some "?")

/-- Lines 312-332 of `main`: the buffer afterwards and the pointer `link`. -/
def read_link (sys : Sys) (realloc_ok : Bool) (entry : directory_entry) (b : link_buf) :
    link_buf × Option String :=
  if entry.stat_ok && S_ISLNK entry.stat.st_mode then
    read_into sys entry (grow_link_buf realloc_ok entry.stat.st_size b)
  else (b, none)

/-- Arguments of the `fprintf` call that prints one entry. -/
structure row where
  mode_buf : String
  st_nlink : Nat
  uid_name : Option String
  gid_name : Option String
  st_size : Nat
  mtime : Option String
  name : String
  link : Option String
  deriving DecidableEq, Repr

/-- The `fprintf` call of the second loop of `main`, format
`"%s %*ju %*s %*s %*ju %*s %s%s%s\n"`.  The result is `none` when a `%s` conversion is
given a `NULL` pointer. -/
def print_row (l : layout) (r : row) : Option String :=
  match r.uid_name, r.gid_name, r.mtime with
  | some uid_name, some gid_name, some mtime =>
    some (r.mode_buf ++ " " ++ pad_left l.nlink_column_width (fmt_ju r.st_nlink) ++ " "
      ++ pad_left l.max_uid_name uid_name ++ " " ++ pad_left l.max_gid_name gid_name ++ " "
      ++ pad_left l.size_column_width (fmt_ju r.st_size) ++ " "
      ++ pad_left l.mtime_column_width mtime ++ " " ++ r.name
      ++ (if r.link.isSome then " -> " else "") ++ r.link.getD "" ++ "\n")
  | _, _, _ => none

/-- The arguments the second loop of `main` computes for entry `i`, and the link target
buffer afterwards. -/
def render_entry (sys : Sys) (l : layout) (i : Nat) (entry : directory_entry) (b : link_buf) :
    link_buf × row :=
  let mode_buf : String :=
    if entry.stat_ok then String.mk ((sys.strmode entry.stat.st_mode).data.take STRMODE_COLUMN_SIZE)
    else String.mk (List.replicate STRMODE_COLUMN_SIZE '?')
  let uid_name := lookup_name entry.stat_ok entry.stat.st_uid l.uids l.n_uids l.uid_names uid_cmp
  let gid_name := lookup_name entry.stat_ok entry.stat.st_gid l.gids l.n_gids l.gid_names gid_cmp
  let res := read_link sys (sys.realloc_ok i) entry b
  (res.1,
    { mode_buf := mode_buf, st_nlink := entry.stat.st_nlink, uid_name := uid_name,
      gid_name := gid_name, st_size := entry.stat.st_size, mtime := l.mtimes[i]?,
      name := entry.name, link := res.2 })

/-- The second loop of `main` from entry `i` on: the rows printed and the link target buffer
at the end. -/
def render_loop (sys : Sys) (l : layout) :
    Nat → List directory_entry → link_buf → List row × link_buf
  | _, [], b => ([], b)
  | i, entry :: rest, b =>
    let res := render_entry sys l i entry b
    let tl := render_loop sys l (i + 1) rest res.1
    (res.2 :: tl.1, tl.2)

/-- Lines written to standard output for a sorted entry array when `time` answers `now` and
no allocation of `main` fails: the `total` line and one line per entry. -/
def list_entries (sys : Sys) (S_BLKSIZE : Nat) (now : Int) (entries : List directory_entry) :
    List (Option String) :=
  let l := compute_layout sys now entries
  some (total_line S_BLKSIZE l.total_blocks)
    :: (render_loop sys l 0 entries link_buf_init).1.map (print_row l)

/-- The first loop of `main` together with its `strdup` calls: `none` when a `strdup` returns
`NULL`, on which `main` returns `EXIT_FAILURE` (lines 194-197) and what the iteration computed
is lost.  `k` is the number of allocations `main` made so far. -/
def scan_loop (sys : Sys) (now : Int) :
    List directory_entry → Nat → scan_state → Option scan_state
  | [], _, s => some s
  | entry :: rest, k, s =>
    if sys.main_alloc_ok k then scan_loop sys now rest (k + 1) (scan_entry sys now s entry)
    else none

/-- The body of a name resolution loop of `main` together with its `strdup` calls, made for
the identifiers that have a name: `none` when a `strdup` returns `NULL`, on which `main`
returns `EXIT_FAILURE` (lines 237-240, 266-269); otherwise the names, the width and the
number of allocations made so far. -/
def resolve_loop (sys : Sys) (lookup : Nat → Option String) :
    List Nat → Nat → List (Option String) × Nat → Option ((List (Option String) × Nat) × Nat)
  | [], k, acc => some (acc, k)
  | id :: rest, k, acc =>
    match lookup id with
    | some _ =>
      if sys.main_alloc_ok k then resolve_loop sys lookup rest (k + 1) (resolve_step lookup acc id)
      else none
    | none => resolve_loop sys lookup rest k (resolve_step lookup acc id)

/-- The `calloc` of a name array, its test `names == NULL && n > 0` (lines 226-229, 255-258)
and the resolution loop that follows. -/
def resolve_names_alloc (sys : Sys) (lookup : Nat → Option String) (ids : List Nat) (n k : Nat) :
    Option ((List (Option String) × Nat) × Nat) :=
  if !sys.main_alloc_ok k && n > 0 then none
  else resolve_loop sys lookup (ids.take n) (k + 1) ([], 1)

/-- How lines 150-276 of `main` end. -/
inductive prepared where
  /-- The `fprintf` of line 278 is reached with these values. -/
  | ready (l : layout)
  /-- A `return EXIT_FAILURE` was taken. -/
  | failure
  /-- The null pointer `mtimes` was stored through. -/
  | undefined
  deriving DecidableEq, Repr

/-- Lines 150-276 of `main` with the calls that can make it stop: the three `calloc` calls
(allocations `0`, `1`, `2`; `uids` and `gids` are tested, `mtimes` is not), `time`, the first
loop with its `strdup` calls, and for owners and then groups the sort, the compaction, the
`calloc` of the name array and the resolution loop. -/
def prepare (sys : Sys) (entries : List directory_entry) : prepared :=
  if !sys.main_alloc_ok 0 || !sys.main_alloc_ok 1 then prepared.failure
  else
    match sys.time with
    | none => prepared.failure
    | some now =>
      if !sys.main_alloc_ok 2 && entries.length > 0 then prepared.undefined
      else
        match scan_loop sys now entries 3 scan_init with
        | none => prepared.failure
        | some sc =>
          let uids := qsort sc.uids sc.n_uids_gids uid_cmp
          let ru := unique uids sc.n_uids_gids 4 uid_cmp
          match resolve_names_alloc sys sys.getpwuid ru.2 ru.1 (3 + entries.length) with
          | none => prepared.failure
          | some (un, k) =>
            let gids := qsort sc.gids sc.n_uids_gids gid_cmp
            let rg := unique gids sc.n_uids_gids 4 gid_cmp
            match resolve_names_alloc sys sys.getgrgid rg.2 rg.1 k with
            | none => prepared.failure
            | some (gn, _) =>
              prepared.ready
                { mtimes := sc.mtimes
                  nlink_column_width := sc.nlink_column_width
                  size_column_width := sc.size_column_width
                  mtime_column_width := sc.mtime_column_width
                  total_blocks := sc.total_blocks
                  uids := ru.2, n_uids := ru.1, uid_names := un.1, max_uid_name := un.2
                  gids := rg.2, n_gids := rg.1, gid_names := gn.1, max_gid_name := gn.2 }

/-- Lines 278-347 of `main`: the `total` line and one line per entry. -/
def print_entries (sys : Sys) (S_BLKSIZE : Nat) (l : layout) (entries : List directory_entry) :
    List (Option String) :=
  some (total_line S_BLKSIZE l.total_blocks)
    :: (render_loop sys l 0 entries link_buf_init).1.map (print_row l)

/-- Function `main`: the exit status and the lines written to standard output.  Every
`return EXIT_FAILURE` comes before the first `fprintf` to standard output.  When the program
stores through the null pointer `mtimes` its behaviour is undefined: this is reported as a
failure with the single undefined line `none`. -/
def main (sys : Sys) (S_BLKSIZE : Nat) (argc : Nat) : Nat × List (Option String) :=
  if argc > 1 then (EXIT_FAILURE, [])
  else
    match directory_entries_read sys directory_entries_init with
    | (false, _) => (EXIT_FAILURE, [])
    | (true, entries) =>
      let sorted := qsort entries.entries entries.n (entry_cmp sys.strcoll)
      match prepare sys sorted with
      | prepared.failure => (EXIT_FAILURE, [])
      | prepared.undefined => (EXIT_FAILURE, [none])
      | prepared.ready l => (EXIT_SUCCESS, print_entries sys S_BLKSIZE l sorted)

/-! ## A concrete environment, used to run the embedding -/

/-- Byte-wise comparison of two strings (`strcmp`). -/
def bytes_cmp : List Char → List Char → Int
  | [], [] => 0
  | [], _ :: _ => -1
  | _ :: _, [] => 1
  | a :: as, b :: bs =>
    if a.toNat < b.toNat then -1 else if b.toNat < a.toNat then 1 else bytes_cmp as bs

/-- Collation of the `C` locale. -/
def demo_strcoll (a b : String) : Int :=
  bytes_cmp a.data b.data

/-- Status of a directory, of a regular file and of a symbolic link. -/
def demo_dir_stat : stat :=
  { st_mode := 0o040755, st_nlink := 2, st_uid := 0, st_gid := 0, st_size := 4096,
    st_blocks := 8, st_mtim := 1700000000 }

def demo_file_stat : stat :=
  { st_mode := 0o100644, st_nlink := 3, st_uid := 1000, st_gid := 100, st_size := 42,
    st_blocks := 1, st_mtim := 1600000000 }

def demo_link_stat : stat :=
  { st_mode := 0o120777, st_nlink := 1, st_uid := 1000, st_gid := 100, st_size := 5,
    st_blocks := 0, st_mtim := 1700000001 }

/-- A directory holding `.hidden`, `fileB`, `lnk -> fileB`, `gone` (whose `lstat` fails) and
`dirA`; user `1000` has no password entry. -/
def demo_sys : Sys :=
  { opendir := some { dirents := [".hidden", "fileB", "lnk", "gone", "dirA"], read_error := false }
    closedir_ok := true
    lstat := fun name =>
      if name = "dirA" then some demo_dir_stat
      else if name = "fileB" then some demo_file_stat
      else if name = "lnk" then some demo_link_stat
      else none
    stat := fun name =>
      if name = "dirA" then some demo_dir_stat
      else if name = "fileB" ∨ name = "lnk" then some demo_file_stat
      else none
    alloc_ok := fun _ => true
    time := some 1700000000
    localtime_r := fun _ => some { tm_min := 0, tm_hour := 0, tm_mday := 1, tm_mon := 0, tm_year := 70 }
    strftime_text := fun format _ => format
    strcoll := demo_strcoll
    getpwuid := fun uid => if uid = 0 then some "root" else none
    getgrgid := fun gid => if gid = 0 then some "root" else if gid = 100 then some "users" else none
    strmode := fun mode =>
      if S_ISDIR mode then "drwxr-xr-x " else if S_ISLNK mode then "lrwxrwxrwx " else "-rw-r--r-- "
    readlink := fun name bufsiz => if name = "lnk" then some (String.mk ("fileB".data.take bufsiz)) else none
    realloc_ok := fun _ => true
    main_alloc_ok := fun _ => true }

/-- The system `demo_sys` once user `1000` has the name `user`: every owner and group of
the directory then has a name. -/
def demo_sys_named : Sys :=
  { demo_sys with
    getpwuid := fun uid => if uid = 0 then some "root" else if uid = 1000 then some "user" else none }

/-- The system `demo_sys_named` when no `realloc` succeeds. -/
def demo_sys_no_realloc : Sys :=
  { demo_sys_named with realloc_ok := fun _ => false }

/-- The sorted entry array of `main` in the directory of `demo_sys`: `dirA`, `fileB`, `gone`,
`lnk`. -/
def demo_sorted : List directory_entry :=
  qsort (directory_entries_read demo_sys directory_entries_init).2.entries
    (directory_entries_read demo_sys directory_entries_init).2.n (entry_cmp demo_sys.strcoll)

/-- An entry whose block count is the largest value of `blkcnt_t`. -/
def demo_huge_entry : directory_entry :=
  { stat :=
      { st_mode := 0o100644, st_nlink := 1, st_uid := 0, st_gid := 0, st_size := 0,
        st_blocks := 9223372036854775807, st_mtim := 0 }
    stat_ok := true, is_dir := false, name := "huge" }

/-- A successfully looked-up entry with the given block count. -/
def demo_blocks_entry (st_blocks : Nat) : directory_entry :=
  { stat :=
      { st_mode := 0o100644, st_nlink := 1, st_uid := 0, st_gid := 0, st_size := 0,
        st_blocks := st_blocks, st_mtim := 0 }
    stat_ok := true, is_dir := false, name := "f" }

/-- The directory of `demo_sys` reduced to `fileB`, on a system where no identifier has a name. -/
def demo_sys_anonymous : Sys :=
  { demo_sys with
    opendir := some { dirents := ["fileB"], read_error := false }
    getpwuid := fun _ => none
    getgrgid := fun _ => none }

/-! ## Theorems about `unique` -/

theorem getElem?_mid {α : Type} (ys mid : List α) (x : α) (R : List α) :
    (ys ++ (mid ++ (x :: R)))[ys.length + mid.length]? = some x := by
  rw [List.getElem?_append_right (by omega)]
  rw [List.getElem?_append_right (by omega)]
  simp

theorem elem_at_in {α : Type} (size : Nat) (hsize : 0 < size) (ys mid : List α) (x : α)
    (R : List α) :
    elem_at (ys ++ (mid ++ (x :: R))) size ((ys.length + mid.length) * size) = some x := by
  unfold elem_at
  rw [Nat.mul_div_cancel _ hsize]
  exact getElem?_mid ys mid x R

theorem elem_at_prev {α : Type} (size : Nat) (hsize : 0 < size) (ys : List α) (p : α)
    (R : List α) (h : ys.getLast? = some p) :
    elem_at (ys ++ R) size ((ys.length - 1) * size) = some p := by
  unfold elem_at
  rw [Nat.mul_div_cancel _ hsize]
  rw [List.getLast?_eq_getElem?] at h
  have hlen : ys.length - 1 < ys.length := by
    cases ys with
    | nil => simp at h
    | cons a l => simp
  rw [List.getElem?_append_left hlen]
  exact h

theorem step_keep {α : Type} (size : Nat) (hsize : 0 < size) (ys mid : List α) (x : α)
    (R : List α) :
    ∃ mid2 : List α, mid2.length = mid.length ∧
      (if ys.length * size ≠ (ys.length + mid.length) * size
        then memcpy_elem (ys ++ (mid ++ (x :: R))) size (ys.length * size)
          ((ys.length + mid.length) * size)
        else ys ++ (mid ++ (x :: R))) = (ys ++ [x]) ++ (mid2 ++ R) := by
  cases mid with
  | nil =>
    refine ⟨[], rfl, ?_⟩
    simp
  | cons m mid1 =>
    refine ⟨mid1 ++ [x], by simp, ?_⟩
    have hne : ys.length * size ≠ (ys.length + (m :: mid1).length) * size := by
      intro h
      have := Nat.eq_of_mul_eq_mul_right hsize h
      simp at this
    rw [if_pos hne]
    unfold memcpy_elem
    rw [elem_at_in size hsize]
    rw [Nat.mul_div_cancel _ hsize]
    simp

theorem prev_ptr_snoc {α : Type} (ys : List α) (x : α) (size : Nat) :
    prev_ptr (ys ++ [x]) size = some (ys.length * size) := by
  simp [prev_ptr]

theorem unique_loop_spec {α : Type} (size : Nat) (hsize : 0 < size) (cmp : α → α → Int)
    (rest : List α) : ∀ (ys mid tail : List α) (fuel endp inp : Nat) (s : unique_state α),
    rest.length < fuel →
    endp = (ys.length + mid.length + rest.length) * size →
    inp = (ys.length + mid.length) * size →
    s = { buf := ys ++ (mid ++ (rest ++ tail)), out := ys.length * size,
          prev_out := prev_ptr ys size, out_count := ys.length } →
    ∃ mid2 : List α,
      unique_loop size cmp endp fuel inp s
      = { buf := (ys ++ compact cmp ys.getLast? rest) ++ (mid2 ++ tail),
          out := (ys ++ compact cmp ys.getLast? rest).length * size,
          prev_out := prev_ptr (ys ++ compact cmp ys.getLast? rest) size,
          out_count := (ys ++ compact cmp ys.getLast? rest).length }
      ∧ (ys ++ compact cmp ys.getLast? rest).length + mid2.length
          = ys.length + mid.length + rest.length := by
  induction rest with
  | nil =>
    intro ys mid tail fuel endp inp s hf he hi hs
    refine ⟨mid, ?_, ?_⟩
    · cases fuel with
      | zero => simp at hf
      | succ f =>
        subst he hi hs
        simp [unique_loop, compact]
    · simp [compact]
  | cons x rest ih =>
    intro ys mid tail fuel endp inp s hf he hi hs
    cases fuel with
    | zero => simp at hf
    | succ f =>
      have hf2 : rest.length < f := by simpa using hf
      have hlt : inp < endp := by
        rw [he, hi]
        apply Nat.mul_lt_mul_of_pos_right _ hsize
        simp
      rw [unique_loop, if_pos hlt]
      have hin : elem_at s.buf size inp = some x := by
        rw [hs, hi]; exact elem_at_in size hsize ys mid x (rest ++ tail)
      obtain ⟨mid2, hm2, hw⟩ := step_keep size hsize ys mid x (rest ++ tail)
      -- the state reached when the element is kept
      have hkeep : ∀ s2 : unique_state α,
          s2 = { buf := if s.out ≠ inp then memcpy_elem s.buf size s.out inp else s.buf
                 out := s.out + size
                 prev_out := some s.out
                 out_count := s.out_count + 1 } →
          ∃ mid3 : List α,
            unique_loop size cmp endp f (inp + size) s2
            = { buf := ((ys ++ [x]) ++ compact cmp (some x) rest) ++ (mid3 ++ tail),
                out := ((ys ++ [x]) ++ compact cmp (some x) rest).length * size,
                prev_out := prev_ptr ((ys ++ [x]) ++ compact cmp (some x) rest) size,
                out_count := ((ys ++ [x]) ++ compact cmp (some x) rest).length }
            ∧ ((ys ++ [x]) ++ compact cmp (some x) rest).length + mid3.length
                = ys.length + mid.length + (x :: rest).length := by
        intro s2 hs2
        have := ih (ys ++ [x]) mid2 tail f endp (inp + size) s2 hf2
          (by
            rw [he]
            simp only [List.length_append, List.length_cons, List.length_nil, hm2]
            ring)
          (by
            rw [hi]
            simp only [List.length_append, List.length_cons, List.length_nil, hm2]
            ring)
          (by
            have hs1 : s =
                { buf := ys ++ (mid ++ (x :: (rest ++ tail))),
                  out := ys.length * size,
                  prev_out := prev_ptr ys size,
                  out_count := ys.length } := hs
            rw [hs2, hs1]
            dsimp only
            rw [hi, hw, prev_ptr_snoc]
            simp [Nat.succ_mul])
        obtain ⟨mid3, h1, h2⟩ := this
        refine ⟨mid3, ?_, ?_⟩
        · rw [h1]; simp
        · rw [List.getLast?_append] at h2
          simp at h2 ⊢
          omega
      cases hl : ys.getLast? with
      | none =>
        have hys : ys = [] := by simpa using hl
        have hstep : unique_step size cmp inp s =
            { buf := if s.out ≠ inp then memcpy_elem s.buf size s.out inp else s.buf
              out := s.out + size
              prev_out := some s.out
              out_count := s.out_count + 1 } := by
          unfold unique_step
          rw [hs]
          simp [prev_ptr, hys]
        obtain ⟨mid3, h1, h2⟩ := hkeep _ hstep
        refine ⟨mid3, ?_, ?_⟩
        · rw [h1]; simp [compact]
        · simp [compact] at h2 ⊢; omega
      | some p =>
        have hprev : s.prev_out = some ((ys.length - 1) * size) := by
          rw [hs]
          have : ys ≠ [] := by intro h; simp [h] at hl
          simp [prev_ptr, this]
        have hpe : elem_at s.buf size ((ys.length - 1) * size) = some p := by
          rw [hs]; exact elem_at_prev size hsize ys p _ hl
        by_cases hc : cmp p x = 0
        · have hstep : unique_step size cmp inp s = s := by
            unfold unique_step
            simp [hprev, hpe, hin, hc]
          rw [hstep]
          have := ih ys (mid ++ [x]) tail f endp (inp + size) s hf2
            (by
              rw [he]
              simp only [List.length_append, List.length_cons, List.length_nil]
              ring)
            (by
              rw [hi]
              simp only [List.length_append, List.length_cons, List.length_nil]
              ring)
            (by rw [hs]; simp)
          obtain ⟨mid3, h1, h2⟩ := this
          refine ⟨mid3, ?_, ?_⟩
          · rw [h1, hl]; simp [compact, hc]
          · rw [hl] at h2; simp [compact, hc] at h2 ⊢; omega
        · have hstep : unique_step size cmp inp s =
              { buf := if s.out ≠ inp then memcpy_elem s.buf size s.out inp else s.buf
                out := s.out + size
                prev_out := some s.out
                out_count := s.out_count + 1 } := by
            unfold unique_step
            simp [hprev, hpe, hin, hc]
          obtain ⟨mid3, h1, h2⟩ := hkeep _ hstep
          refine ⟨mid3, ?_, ?_⟩
          · rw [h1]; simp [compact, hc]
          · simp [compact, hc] at h2 ⊢; omega

theorem cmp_consistent.refl {α : Type} {cmp : α → α → Int} (h : cmp_consistent cmp) (a : α) :
    cmp a a = 0 := by
  have h1 := h.antisymm a a
  omega

theorem cmp_consistent.symm {α : Type} {cmp : α → α → Int} (h : cmp_consistent cmp) {a b : α}
    (hab : cmp a b = 0) : cmp b a = 0 := by
  have h1 := h.antisymm a b
  have h2 := h.antisymm b a
  omega

theorem cmp_consistent.eq_of_le_le {α : Type} {cmp : α → α → Int} (h : cmp_consistent cmp)
    {a b : α} (hab : cmp a b ≤ 0) (hba : cmp b a ≤ 0) : cmp a b = 0 := by
  have h1 := h.antisymm a b
  have h2 := h.antisymm b a
  omega

theorem cmp_consistent.eq_trans {α : Type} {cmp : α → α → Int} (h : cmp_consistent cmp)
    {a b c : α} (hab : cmp a b = 0) (hbc : cmp b c = 0) : cmp a c = 0 := by
  have hba := h.symm hab
  have hcb := h.symm hbc
  apply h.eq_of_le_le
  · exact h.trans a b c (by omega) (by omega)
  · exact h.trans c b a (by omega) (by omega)

theorem class_firsts_from_sublist {α : Type} (cmp : α → α → Int) (xs : List α) :
    ∀ seen : List α, (class_firsts_from cmp seen xs).Sublist xs := by
  induction xs with
  | nil => intro seen; simp [class_firsts_from]
  | cons x xs ih =>
    intro seen
    unfold class_firsts_from
    split
    · exact (ih (x :: seen)).cons₂ x
    · exact (ih (x :: seen)).cons x

theorem class_firsts_from_ne {α : Type} (cmp : α → α → Int) (xs : List α) :
    ∀ seen : List α, ∀ y ∈ class_firsts_from cmp seen xs, ∀ s ∈ seen, cmp s y ≠ 0 := by
  induction xs with
  | nil => intro seen y hy; simp [class_firsts_from] at hy
  | cons x xs ih =>
    intro seen y hy s hs
    unfold class_firsts_from at hy
    split at hy
    · rename_i hall
      rcases List.mem_cons.mp hy with rfl | hy
      · have := (List.all_eq_true.mp hall) s hs
        simpa using this
      · exact ih (x :: seen) y hy s (List.mem_cons_of_mem _ hs)
    · exact ih (x :: seen) y hy s (List.mem_cons_of_mem _ hs)

theorem class_firsts_from_pairwise {α : Type} (cmp : α → α → Int) (xs : List α) :
    ∀ seen : List α, (class_firsts_from cmp seen xs).Pairwise (fun a b => cmp a b ≠ 0) := by
  induction xs with
  | nil => intro seen; simp [class_firsts_from]
  | cons x xs ih =>
    intro seen
    unfold class_firsts_from
    split
    · refine List.Pairwise.cons ?_ (ih (x :: seen))
      intro y hy
      exact class_firsts_from_ne cmp xs (x :: seen) y hy x (List.mem_cons_self _ _)
    · exact ih (x :: seen)

theorem class_firsts_from_cover {α : Type} {cmp : α → α → Int} (h : cmp_consistent cmp)
    (xs : List α) : ∀ seen : List α, ∀ x ∈ xs,
      (∃ s ∈ seen, cmp s x = 0) ∨ (∃ y ∈ class_firsts_from cmp seen xs, cmp y x = 0) := by
  induction xs with
  | nil => intro seen x hx; simp at hx
  | cons x0 xs ih =>
    intro seen x hx
    by_cases hall : seen.all (fun y => decide (cmp y x0 ≠ 0)) = true
    · have hcf : class_firsts_from cmp seen (x0 :: xs)
          = x0 :: class_firsts_from cmp (x0 :: seen) xs := by
        rw [class_firsts_from, if_pos hall]
      rw [hcf]
      rcases List.mem_cons.mp hx with rfl | hx
      · exact Or.inr ⟨x, List.mem_cons_self _ _, h.refl x⟩
      · rcases ih (x0 :: seen) x hx with ⟨s, hs, hsx⟩ | ⟨y, hy, hyx⟩
        · rcases List.mem_cons.mp hs with rfl | hs
          · exact Or.inr ⟨s, List.mem_cons_self _ _, hsx⟩
          · exact Or.inl ⟨s, hs, hsx⟩
        · exact Or.inr ⟨y, List.mem_cons_of_mem _ hy, hyx⟩
    · have hcf : class_firsts_from cmp seen (x0 :: xs)
          = class_firsts_from cmp (x0 :: seen) xs := by
        rw [class_firsts_from, if_neg hall]
      rw [hcf]
      have hex : ∃ s ∈ seen, cmp s x0 = 0 := by
        simpa [List.all_eq_true] using hall
      obtain ⟨s0, hs0, hs0x⟩ := hex
      rcases List.mem_cons.mp hx with rfl | hx
      · exact Or.inl ⟨s0, hs0, hs0x⟩
      · rcases ih (x0 :: seen) x hx with ⟨s, hs, hsx⟩ | ⟨y, hy, hyx⟩
        · rcases List.mem_cons.mp hs with rfl | hs
          · exact Or.inl ⟨s0, hs0, h.eq_trans hs0x hsx⟩
          · exact Or.inl ⟨s, hs, hsx⟩
        · exact Or.inr ⟨y, hy, hyx⟩

theorem class_firsts_from_card {α : Type} [DecidableEq α] (cmp : α → α → Int)
    (heq : ∀ a b, cmp a b = 0 ↔ a = b) (xs : List α) :
    ∀ seen : List α,
      (class_firsts_from cmp seen xs).length = (xs.toFinset \ seen.toFinset).card := by
  induction xs with
  | nil => intro seen; simp [class_firsts_from]
  | cons x xs ih =>
    intro seen
    have hall : (seen.all (fun y => decide (cmp y x ≠ 0)) = true) ↔ x ∉ seen := by
      rw [List.all_eq_true]
      constructor
      · intro h hx
        have := h x hx
        simp [(heq x x).mpr rfl] at this
      · intro h y hy
        simp only [decide_eq_true_eq]
        intro hc
        rw [(heq y x).mp hc] at hy
        exact h hy
    unfold class_firsts_from
    by_cases hx : x ∈ seen
    · rw [if_neg (fun h => (hall.mp h) hx), ih]
      congr 1
      ext a
      simp only [List.toFinset_cons, Finset.mem_sdiff, Finset.mem_insert, List.mem_toFinset]
      constructor
      · rintro ⟨h1, h2⟩
        exact ⟨Or.inr h1, fun h => h2 (Or.inr h)⟩
      · rintro ⟨h1, h2⟩
        rcases h1 with rfl | h1
        · exact absurd hx h2
        · exact ⟨h1, fun h => h.elim (fun e => h2 (e ▸ hx)) h2⟩
    · rw [if_pos (hall.mpr hx), List.length_cons, ih]
      have hsplit : (x :: xs).toFinset \ seen.toFinset
          = insert x (xs.toFinset \ (x :: seen).toFinset) := by
        ext a
        simp only [List.toFinset_cons, Finset.mem_sdiff, Finset.mem_insert, List.mem_toFinset]
        constructor
        · rintro ⟨h1, h2⟩
          by_cases ha : a = x
          · exact Or.inl ha
          · rcases h1 with h1 | h1
            · exact absurd h1 ha
            · exact Or.inr ⟨h1, fun h => h.elim ha h2⟩
        · rintro (rfl | ⟨h1, h2⟩)
          · exact ⟨Or.inl rfl, hx⟩
          · exact ⟨Or.inr h1, fun h => h2 (Or.inr h)⟩
      rw [hsplit, Finset.card_insert_of_not_mem]
      simp

/-- When `cmp a b = 0` means `a = b`, `class_count` is the number of distinct values. -/
theorem class_count_eq_card {α : Type} [DecidableEq α] (cmp : α → α → Int)
    (heq : ∀ a b, cmp a b = 0 ↔ a = b) (xs : List α) :
    class_count cmp xs = xs.toFinset.card := by
  unfold class_count class_firsts
  rw [class_firsts_from_card cmp heq xs []]
  simp

/-- Index form of "first occurrence": every element of `class_firsts_from` sits at a position
of the input before which nothing compares equal to it. -/
theorem class_firsts_from_first {α : Type} (cmp : α → α → Int) (xs : List α) :
    ∀ seen : List α, ∀ y ∈ class_firsts_from cmp seen xs,
      ∃ i : Nat, xs[i]? = some y ∧ ∀ j : Nat, j < i → ∀ z, xs[j]? = some z → cmp z y ≠ 0 := by
  induction xs with
  | nil => intro seen y hy; simp [class_firsts_from] at hy
  | cons x xs ih =>
    intro seen y hy
    have hrec : ∀ y ∈ class_firsts_from cmp (x :: seen) xs,
        ∃ i : Nat, (x :: xs)[i]? = some y ∧ ∀ j : Nat, j < i → ∀ z, (x :: xs)[j]? = some z → cmp z y ≠ 0 := by
      intro y hy
      obtain ⟨i, hi, hlt⟩ := ih (x :: seen) y hy
      refine ⟨i + 1, by simpa using hi, ?_⟩
      intro j hj z hz
      cases j with
      | zero =>
        have hzx : x = z := by simpa using hz
        subst hzx
        exact class_firsts_from_ne cmp xs (x :: seen) y hy x (List.mem_cons_self _ _)
      | succ j => exact hlt j (by omega) z (by simpa using hz)
    unfold class_firsts_from at hy
    split at hy
    · rcases List.mem_cons.mp hy with rfl | hy
      · exact ⟨0, by simp, by intro j hj; omega⟩
      · exact hrec y hy
    · exact hrec y hy

/-- On a sorted list adjacent compaction keeps exactly the first element of every class. -/
theorem compact_eq_class_firsts_from {α : Type} {cmp : α → α → Int} (h : cmp_consistent cmp)
    (xs : List α) : ∀ (seen : List α) (prev : Option α),
    xs.Pairwise (fun a b => cmp a b ≤ 0) →
    (∀ s ∈ seen, ∀ x ∈ xs, cmp s x ≤ 0) →
    ((prev = none ∧ seen = []) ∨
      ∃ p m, prev = some p ∧ m ∈ seen ∧ cmp p m = 0 ∧ ∀ s ∈ seen, cmp s m ≤ 0) →
    compact cmp prev xs = class_firsts_from cmp seen xs := by
  induction xs with
  | nil => intro seen prev _ _ _; cases prev <;> simp [compact, class_firsts_from]
  | cons x xs ih =>
    intro seen prev hsorted hseen hlink
    have hsx : ∀ y ∈ xs, cmp x y ≤ 0 := (List.pairwise_cons.mp hsorted).1
    have hsorted2 : xs.Pairwise (fun a b => cmp a b ≤ 0) := (List.pairwise_cons.mp hsorted).2
    have hseen2 : ∀ s ∈ x :: seen, ∀ y ∈ xs, cmp s y ≤ 0 := by
      intro s hs y hy
      rcases List.mem_cons.mp hs with rfl | hs
      · exact hsx y hy
      · exact hseen s hs y (List.mem_cons_of_mem _ hy)
    have hmax : ∀ s ∈ x :: seen, cmp s x ≤ 0 := by
      intro s hs
      rcases List.mem_cons.mp hs with rfl | hs
      · exact le_of_eq (h.refl s)
      · exact hseen s hs x (List.mem_cons_self _ _)
    rcases hlink with ⟨rfl, rfl⟩ | ⟨p, m, rfl, hm, hpm, hmmax⟩
    · simp only [compact, class_firsts_from, List.all_nil, if_true]
      congr 1
      exact ih [x] (some x) hsorted2 hseen2
        (Or.inr ⟨x, x, rfl, List.mem_cons_self _ _, h.refl x, hmax⟩)
    · by_cases hc : cmp p x = 0
      · have hnall : ¬ (seen.all (fun y => decide (cmp y x ≠ 0)) = true) := by
          intro hall
          have := (List.all_eq_true.mp hall) m hm
          have hmx : cmp m x = 0 := h.eq_trans (h.symm hpm) hc
          simp [hmx] at this
        rw [compact, if_pos hc, class_firsts_from, if_neg hnall]
        exact ih (x :: seen) (some p) hsorted2 hseen2
          (Or.inr ⟨p, x, rfl, List.mem_cons_self _ _, hc, hmax⟩)
      · have hall : seen.all (fun y => decide (cmp y x ≠ 0)) = true := by
          rw [List.all_eq_true]
          intro y hy
          simp only [decide_eq_true_eq]
          intro hyx
          apply hc
          have hym : cmp y m ≤ 0 := hmmax y hy
          have hmx : cmp m x ≤ 0 := hseen m hm x (List.mem_cons_self _ _)
          have hxy : cmp x y ≤ 0 := le_of_eq (h.symm hyx)
          have hxm : cmp x m ≤ 0 := h.trans x y m hxy hym
          exact h.eq_trans hpm (h.eq_of_le_le hmx hxm)
        rw [compact, if_neg hc, class_firsts_from, if_pos hall]
        congr 1
        exact ih (x :: seen) (some x) hsorted2 hseen2
          (Or.inr ⟨x, x, rfl, List.mem_cons_self _ _, h.refl x, hmax⟩)

/-- What `unique` leaves in the buffer, for any comparator: the adjacent compaction of the
first `n` elements in the first `out_count` slots, the buffer length unchanged. -/
theorem unique_eq_compact {α : Type} (buf : List α) (n size : Nat) (cmp : α → α → Int)
    (hsize : 0 < size) (hn : n ≤ buf.length) :
    (unique buf n size cmp).1 = (compact cmp none (buf.take n)).length ∧
    (unique buf n size cmp).2.take (unique buf n size cmp).1 = compact cmp none (buf.take n) ∧
    (unique buf n size cmp).2.length = buf.length := by
  obtain ⟨mid2, h1, h2⟩ := unique_loop_spec size hsize cmp (buf.take n) [] [] (buf.drop n)
    (n + 1) (n * size) 0
    { buf := buf, out := 0, prev_out := none, out_count := 0 }
    (by simp) (by simp [Nat.min_eq_left hn]) (by simp)
    (by simp [prev_ptr])
  unfold unique
  rw [h1]
  simp only [List.nil_append, List.getLast?_nil] at h2 ⊢
  refine ⟨trivial, ?_, ?_⟩
  · simp
  · have h3 : (buf.take n).length = n := by simp [Nat.min_eq_left hn]
    have h4 : (buf.drop n).length = buf.length - n := by simp
    rw [h3] at h2
    simp only [List.length_append, List.length_nil, h4] at h2 ⊢
    omega

theorem uid_cmp_consistent : cmp_consistent uid_cmp := by
  constructor
  · intro a b
    unfold uid_cmp
    split_ifs <;> omega
  · intro a b c
    unfold uid_cmp
    split_ifs <;> omega

/-- Shared core of the results on sorted buffers: count bound, strict order, subsequence and
coverage of every class by the kept slots. -/
theorem unique_sorted_core {α : Type} (buf : List α) (n size : Nat) (cmp : α → α → Int)
    (hsize : 0 < size) (hn : n ≤ buf.length) (hcmp : cmp_consistent cmp)
    (hsorted : (buf.take n).Pairwise (fun a b => cmp a b ≤ 0)) :
    (unique buf n size cmp).1 ≤ n ∧
    ((unique buf n size cmp).2.take (unique buf n size cmp).1).Pairwise
      (fun a b => cmp a b < 0) ∧
    ((unique buf n size cmp).2.take (unique buf n size cmp).1).Sublist (buf.take n) ∧
    (∀ x ∈ buf.take n,
      ∃ y ∈ (unique buf n size cmp).2.take (unique buf n size cmp).1, cmp y x = 0) ∧
    (unique buf n size cmp).2.length = buf.length := by
  obtain ⟨h1, h2, h3⟩ := unique_eq_compact buf n size cmp hsize hn
  have hcf : compact cmp none (buf.take n) = class_firsts cmp (buf.take n) :=
    compact_eq_class_firsts_from hcmp (buf.take n) [] none hsorted (by simp) (Or.inl ⟨rfl, rfl⟩)
  have hsub := class_firsts_from_sublist cmp (buf.take n) []
  rw [h2, h1, hcf]
  refine ⟨?_, ?_, hsub, ?_, h3⟩
  · have := hsub.length_le
    have hl : (buf.take n).length = n := by simp [Nat.min_eq_left hn]
    unfold class_firsts
    omega
  · have hle := hsorted.sublist hsub
    have hne := class_firsts_from_pairwise cmp (buf.take n) []
    refine (hle.and hne).imp ?_
    intro a b hab
    have := hab.1
    have := hab.2
    omega
  · intro x hx
    rcases class_firsts_from_cover hcmp (buf.take n) [] x hx with ⟨s, hs, _⟩ | hy
    · simp at hs
    · exact hy

/-- C1: for a buffer whose first `n` elements (of positive size) are sorted under a consistent
comparator, `unique` returns the number of distinct classes; the first `k` slots then hold a
strictly increasing subsequence of the input made of the first element of every class. -/
theorem unique_sorted_spec {α : Type} (buf : List α) (n size : Nat) (cmp : α → α → Int)
    (hsize : 0 < size) (hn : n ≤ buf.length) (hcmp : cmp_consistent cmp)
    (hsorted : (buf.take n).Pairwise (fun a b => cmp a b ≤ 0)) :
    (unique buf n size cmp).1 = class_count cmp (buf.take n) ∧
    ((unique buf n size cmp).2.take (unique buf n size cmp).1).Pairwise
      (fun a b => cmp a b < 0) ∧
    ((unique buf n size cmp).2.take (unique buf n size cmp).1).Sublist (buf.take n) ∧
    (unique buf n size cmp).2.take (unique buf n size cmp).1 = class_firsts cmp (buf.take n) ∧
    (∀ y ∈ (unique buf n size cmp).2.take (unique buf n size cmp).1,
      ∃ i : Nat, (buf.take n)[i]? = some y ∧
        ∀ j : Nat, j < i → ∀ z, (buf.take n)[j]? = some z → cmp z y ≠ 0) ∧
    (∀ x ∈ buf.take n,
      ∃ y ∈ (unique buf n size cmp).2.take (unique buf n size cmp).1, cmp y x = 0) := by
  obtain ⟨h1, h2, _⟩ := unique_eq_compact buf n size cmp hsize hn
  have hcf : compact cmp none (buf.take n) = class_firsts cmp (buf.take n) :=
    compact_eq_class_firsts_from hcmp (buf.take n) [] none hsorted (by simp) (Or.inl ⟨rfl, rfl⟩)
  rw [h2, h1, hcf]
  have hsub := class_firsts_from_sublist cmp (buf.take n) []
  refine ⟨rfl, ?_, hsub, rfl, ?_, ?_⟩
  · have hle := hsorted.sublist hsub
    have hne := class_firsts_from_pairwise cmp (buf.take n) []
    refine (hle.and hne).imp ?_
    intro a b hab
    have := hab.1
    have := hab.2
    omega
  · exact class_firsts_from_first cmp (buf.take n) []
  · intro x hx
    rcases class_firsts_from_cover hcmp (buf.take n) [] x hx with ⟨s, hs, _⟩ | hy
    · simp at hs
    · exact hy

theorem unique_sorted_spec_witness :
    (unique [1, 1, 2, 3, 3, 7] 5 4 uid_cmp).1 = class_count uid_cmp ([1, 1, 2, 3, 3, 7].take 5) ∧
    (unique [1, 1, 2, 3, 3, 7] 5 4 uid_cmp).1 = 3 ∧
    (unique [1, 1, 2, 3, 3, 7] 5 4 uid_cmp).2.take 3 = [1, 2, 3] :=
  ⟨(unique_sorted_spec [1, 1, 2, 3, 3, 7] 5 4 uid_cmp (by decide) (by decide)
      uid_cmp_consistent (by decide)).1, by decide, by decide⟩

/-! ## Theorems about the entry collector -/

theorem c_char_at_zero_eq_dot (d_name : String) :
    c_char_at d_name 0 = '.' ↔ d_name.data.head? = some '.' := by
  unfold c_char_at
  cases h : d_name.data with
  | nil => simp
  | cons c cs => simp

theorem read_entry_name (sys : Sys) (d_name : String) : (read_entry sys d_name).name = d_name := by
  unfold read_entry
  split <;> rfl

theorem read_entry_failed (sys : Sys) (d_name : String) (h : sys.lstat d_name = none) :
    read_entry sys d_name
      = { stat := stat_zero, stat_ok := false, is_dir := false, name := d_name } := by
  unfold read_entry
  rw [h]

theorem read_loop_spec (sys : Sys) (halloc : ∀ k, sys.alloc_ok k = true) (names : List String) :
    ∀ (capacity allocs : Nat) (arr : directory_entry_array),
      read_loop sys false names capacity allocs arr
        = (true,
            { n := arr.n + (names.filter (fun d => decide (d.data.head? ≠ some '.'))).length,
              entries := arr.entries
                ++ (names.filter (fun d => decide (d.data.head? ≠ some '.'))).map
                    (read_entry sys) }) := by
  induction names with
  | nil => intro capacity allocs arr; simp [read_loop]
  | cons d rest ih =>
    intro capacity allocs arr
    unfold read_loop
    by_cases hd : c_char_at d 0 = '.'
    · have hh := (c_char_at_zero_eq_dot d).mp hd
      rw [if_pos hd, ih]
      simp [hh]
    · have hh : d.data.head? ≠ some '.' := fun h => hd ((c_char_at_zero_eq_dot d).mpr h)
      rw [if_neg hd]
      simp only [halloc, Bool.not_true, Bool.false_eq_true, if_false]
      split
      · rw [ih]
        simp [hh, Nat.add_assoc, Nat.add_comm 1]
      · rw [ih]
        simp [hh, Nat.add_assoc, Nat.add_comm 1]

/-- Whatever the allocations do, a loop that ends with `true` read without error and
appended one entry per visible name. -/
theorem read_loop_true (sys : Sys) (read_error : Bool) (names : List String) :
    ∀ (capacity allocs : Nat) (arr : directory_entry_array),
      (read_loop sys read_error names capacity allocs arr).1 = true →
      read_error = false ∧
      (read_loop sys read_error names capacity allocs arr).2
        = { n := arr.n + (names.filter (fun d => decide (d.data.head? ≠ some '.'))).length,
            entries := arr.entries
              ++ (names.filter (fun d => decide (d.data.head? ≠ some '.'))).map
                  (read_entry sys) } := by
  induction names with
  | nil =>
    intro capacity allocs arr h
    unfold read_loop at h ⊢
    cases read_error <;> simp_all
  | cons d rest ih =>
    intro capacity allocs arr h
    unfold read_loop at h ⊢
    by_cases hd : c_char_at d 0 = '.'
    · have hh := (c_char_at_zero_eq_dot d).mp hd
      rw [if_pos hd] at h ⊢
      obtain ⟨h1, h2⟩ := ih _ _ _ h
      refine ⟨h1, ?_⟩
      rw [h2]
      simp [hh]
    · have hh : d.data.head? ≠ some '.' := fun h => hd ((c_char_at_zero_eq_dot d).mpr h)
      rw [if_neg hd] at h ⊢
      by_cases ha : sys.alloc_ok allocs = true
      · simp only [ha, Bool.not_true, Bool.false_eq_true, if_false] at h ⊢
        by_cases hc : arr.n = capacity
        · rw [if_pos hc] at h ⊢
          by_cases ha2 : sys.alloc_ok (allocs + 1) = true
          · simp only [ha2, Bool.not_true, Bool.false_eq_true, if_false] at h ⊢
            obtain ⟨h1, h2⟩ := ih _ _ _ h
            refine ⟨h1, ?_⟩
            rw [h2]
            simp [hh, Nat.add_assoc, Nat.add_comm 1]
          · simp [ha2] at h
        · rw [if_neg hc] at h ⊢
          obtain ⟨h1, h2⟩ := ih _ _ _ h
          refine ⟨h1, ?_⟩
          rw [h2]
          simp [hh, Nat.add_assoc, Nat.add_comm 1]
      · simp [ha] at h

/-- C3: `directory_entries_read_open` returns `true` when the enumeration ends without error
and no allocation fails; and whenever it returns `true` it has appended, in enumeration order,
one entry for every name that does not begin with `.` and for no other name.  An entry whose
`lstat` failed is kept, with `stat_ok = false`, `is_dir = false` and an all-zero status. -/
theorem read_open_collects_visible (sys : Sys) (dir : DIR) (arr : directory_entry_array) :
    (dir.read_error = false → (∀ k, sys.alloc_ok k = true) →
      (directory_entries_read_open sys dir arr).1 = true) ∧
    ((directory_entries_read_open sys dir arr).1 = true →
      dir.read_error = false ∧
      (directory_entries_read_open sys dir arr).2.entries
        = arr.entries
          ++ (dir.dirents.filter (fun d => decide (d.data.head? ≠ some '.'))).map
              (read_entry sys) ∧
      ((directory_entries_read_open sys dir arr).2.entries.drop arr.entries.length).map
          (fun e => e.name)
        = dir.dirents.filter (fun d => decide (d.data.head? ≠ some '.')) ∧
      (directory_entries_read_open sys dir arr).2.n
        = arr.n + (dir.dirents.filter (fun d => decide (d.data.head? ≠ some '.'))).length ∧
      (∀ e ∈ (directory_entries_read_open sys dir arr).2.entries.drop arr.entries.length,
        e.name.data.head? ≠ some '.' ∧ e.name ∈ dir.dirents ∧
        (sys.lstat e.name = none →
          e.stat_ok = false ∧ e.is_dir = false ∧ e.stat = stat_zero))) := by
  constructor
  · intro hread halloc
    have h := read_loop_spec sys halloc dir.dirents arr.n 0 arr
    unfold directory_entries_read_open
    rw [hread, h]
  · intro htrue
    unfold directory_entries_read_open at htrue ⊢
    obtain ⟨h1, h2⟩ := read_loop_true sys dir.read_error dir.dirents arr.n 0 arr htrue
    rw [h2]
    refine ⟨h1, rfl, ?_, rfl, ?_⟩
    · simp [List.map_map, Function.comp_def, read_entry_name]
    · intro e he
      simp only [List.drop_left] at he
      obtain ⟨d, hd, rfl⟩ := List.mem_map.mp he
      rw [read_entry_name]
      have hd2 := List.mem_filter.mp hd
      refine ⟨by simpa using hd2.2, hd2.1, ?_⟩
      intro hl
      rw [read_entry_failed sys d hl]
      exact ⟨rfl, rfl, rfl⟩

theorem read_open_collects_visible_witness :
    (directory_entries_read_open demo_sys
        { dirents := [".hidden", "fileB", "lnk", "gone", "dirA"], read_error := false }
        directory_entries_init).1 = true ∧
    ((directory_entries_read_open demo_sys
        { dirents := [".hidden", "fileB", "lnk", "gone", "dirA"], read_error := false }
        directory_entries_init).2.entries.drop 0).map (fun e => e.name)
      = ["fileB", "lnk", "gone", "dirA"] :=
  ⟨(read_open_collects_visible demo_sys
      { dirents := [".hidden", "fileB", "lnk", "gone", "dirA"], read_error := false }
      directory_entries_init).1 rfl (fun _ => rfl),
   ((read_open_collects_visible demo_sys
      { dirents := [".hidden", "fileB", "lnk", "gone", "dirA"], read_error := false }
      directory_entries_init).2
      ((read_open_collects_visible demo_sys
        { dirents := [".hidden", "fileB", "lnk", "gone", "dirA"], read_error := false }
        directory_entries_init).1 rfl (fun _ => rfl))).2.2.1⟩

/-! ## Theorems about the comparators and the sort of the entries -/

theorem cmp_consistent.to_total_preorder {α : Type} {cmp : α → α → Int}
    (h : cmp_consistent cmp) : total_preorder cmp := by
  constructor
  · intro a b
    have := h.antisymm a b
    have := h.antisymm b a
    omega
  · exact h.trans

theorem gid_cmp_consistent : cmp_consistent gid_cmp := by
  constructor
  · intro a b
    unfold gid_cmp
    split_ifs <;> omega
  · intro a b c
    unfold gid_cmp
    split_ifs <;> omega

theorem uid_cmp_eq_zero (a b : Nat) : uid_cmp a b = 0 ↔ a = b := by
  unfold uid_cmp
  split_ifs <;> simp [*]

theorem gid_cmp_eq_zero (a b : Nat) : gid_cmp a b = 0 ↔ a = b := by
  unfold gid_cmp
  split_ifs <;> simp [*]

theorem qsort_perm {α : Type} (base : List α) (nmemb : Nat) (cmp : α → α → Int) :
    (qsort base nmemb cmp).Perm base := by
  unfold qsort
  have h1 := List.perm_insertionSort (fun a b => cmp a b ≤ 0) (base.take nmemb)
  have h2 := h1.append_right (base.drop nmemb)
  rwa [List.take_append_drop] at h2

theorem qsort_length {α : Type} (base : List α) (nmemb : Nat) (cmp : α → α → Int) :
    (qsort base nmemb cmp).length = base.length :=
  (qsort_perm base nmemb cmp).length_eq

theorem insertionSort_pairwise {α : Type} {cmp : α → α → Int} (h : total_preorder cmp)
    (l : List α) :
    (l.insertionSort (fun a b => cmp a b ≤ 0)).Pairwise (fun a b => cmp a b ≤ 0) := by
  haveI : IsTotal α (fun a b => cmp a b ≤ 0) := ⟨h.total⟩
  haveI : IsTrans α (fun a b => cmp a b ≤ 0) := ⟨h.trans⟩
  exact List.sorted_insertionSort (fun a b => cmp a b ≤ 0) l

theorem qsort_take {α : Type} (base : List α) (nmemb : Nat) (cmp : α → α → Int)
    (hn : nmemb ≤ base.length) :
    (qsort base nmemb cmp).take nmemb
      = (base.take nmemb).insertionSort (fun a b => cmp a b ≤ 0) := by
  unfold qsort
  have hlen : ((base.take nmemb).insertionSort (fun a b => cmp a b ≤ 0)).length = nmemb := by
    rw [List.length_insertionSort, List.length_take, Nat.min_eq_left hn]
  rw [List.take_append_eq_append_take, hlen, Nat.sub_self, List.take_zero, List.append_nil]
  exact List.take_of_length_le (le_of_eq hlen)

theorem qsort_sorted {α : Type} {cmp : α → α → Int} (h : total_preorder cmp) (base : List α)
    (nmemb : Nat) (hn : nmemb ≤ base.length) :
    ((qsort base nmemb cmp).take nmemb).Pairwise (fun a b => cmp a b ≤ 0) := by
  rw [qsort_take base nmemb cmp hn]
  exact insertionSort_pairwise h _

theorem entry_cmp_total_preorder (strcoll : String → String → Int)
    (h : total_preorder strcoll) : total_preorder (entry_cmp strcoll) := by
  constructor
  · intro a b
    unfold entry_cmp
    rcases h.total a.name b.name with h1 | h1 <;>
      cases ha : a.is_dir <;> cases hb : b.is_dir <;> simp [h1]
  · intro a b c
    unfold entry_cmp
    have := h.trans a.name b.name c.name
    cases ha : a.is_dir <;> cases hb : b.is_dir <;> cases hc : c.is_dir <;> simp <;> assumption

theorem entry_cmp_le (strcoll : String → String → Int) (a b : directory_entry)
    (h : entry_cmp strcoll a b ≤ 0) :
    (b.is_dir = true → a.is_dir = true) ∧ (a.is_dir = b.is_dir → strcoll a.name b.name ≤ 0) := by
  unfold entry_cmp at h
  cases ha : a.is_dir <;> cases hb : b.is_dir <;> simp [ha, hb] at h ⊢ <;> assumption

/-- C4: when `strcoll` is a total preorder on names, `entry_cmp` is a total preorder on
entries, and the array sorted with it is a permutation of the collected one in which no
non-directory precedes a directory and, inside a class, names are non-decreasing. -/
theorem sorted_entries_spec (strcoll : String → String → Int) (entries : List directory_entry)
    (h : total_preorder strcoll) :
    total_preorder (entry_cmp strcoll) ∧
    (qsort entries entries.length (entry_cmp strcoll)).Perm entries ∧
    (qsort entries entries.length (entry_cmp strcoll)).Pairwise
      (fun a b => (b.is_dir = true → a.is_dir = true) ∧
        (a.is_dir = b.is_dir → strcoll a.name b.name ≤ 0)) := by
  have hp := entry_cmp_total_preorder strcoll h
  refine ⟨hp, qsort_perm _ _ _, ?_⟩
  have hs := qsort_sorted hp entries entries.length (le_refl _)
  rw [List.take_of_length_le (le_of_eq (qsort_length _ _ _))] at hs
  exact hs.imp (fun {a b} hab => entry_cmp_le strcoll a b hab)

theorem bytes_cmp_total (a : List Char) : ∀ b, bytes_cmp a b ≤ 0 ∨ bytes_cmp b a ≤ 0 := by
  induction a with
  | nil => intro b; cases b <;> simp [bytes_cmp]
  | cons x xs ih =>
    intro b
    cases b with
    | nil => simp [bytes_cmp]
    | cons y ys =>
      have := ih ys
      simp only [bytes_cmp]
      split_ifs <;> omega

theorem bytes_cmp_trans (a : List Char) :
    ∀ b c, bytes_cmp a b ≤ 0 → bytes_cmp b c ≤ 0 → bytes_cmp a c ≤ 0 := by
  induction a with
  | nil => intro b c _ _; cases c <;> simp [bytes_cmp]
  | cons x xs ih =>
    intro b c
    cases b with
    | nil => simp [bytes_cmp]
    | cons y ys =>
      cases c with
      | nil => simp [bytes_cmp]
      | cons z zs =>
        have := ih ys zs
        simp only [bytes_cmp]
        split_ifs <;> omega

theorem demo_strcoll_total_preorder : total_preorder demo_strcoll :=
  ⟨fun a b => bytes_cmp_total a.data b.data, fun a b c => bytes_cmp_trans a.data b.data c.data⟩

theorem sorted_entries_spec_witness :
    (qsort [read_entry demo_sys "fileB", read_entry demo_sys "dirA"] 2
        (entry_cmp demo_strcoll)).Perm [read_entry demo_sys "fileB", read_entry demo_sys "dirA"] ∧
    qsort [read_entry demo_sys "fileB", read_entry demo_sys "dirA"] 2 (entry_cmp demo_strcoll)
      = [read_entry demo_sys "dirA", read_entry demo_sys "fileB"] :=
  ⟨(sorted_entries_spec demo_strcoll [read_entry demo_sys "fileB", read_entry demo_sys "dirA"]
      demo_strcoll_total_preorder).2.1, by decide⟩

/-! ## Theorems about `format_mtime` -/

/-- C7 (as amended): `format_mtime` selects the recent format exactly when the modification
time is not later than `now` and less than `15778476` seconds earlier; every other time, also
one in the future, gets the old format. -/
theorem format_mtime_selects (sys : Sys) (mtime now : Int) (out_buf_size : Nat) :
    format_mtime sys mtime out_buf_size now
      = (sys.localtime_r mtime).bind
          (strftime sys out_buf_size
            (if 0 ≤ now - mtime ∧ now - mtime < 15778476 then "%b %e %H:%M" else "%b %e  %Y")) ∧
    (select_format mtime now = recent_format ↔ (0 ≤ now - mtime ∧ now - mtime < 15778476)) ∧
    (select_format mtime now = old_format ↔ ¬ (0 ≤ now - mtime ∧ now - mtime < 15778476)) := by
  have hne : recent_format ≠ old_format := by decide
  have hsel : select_format mtime now
      = if 0 ≤ now - mtime ∧ now - mtime < 15778476 then recent_format else old_format := by
    unfold select_format difftime half_year
    simp
  refine ⟨?_, ?_, ?_⟩
  · unfold format_mtime
    rw [hsel]
    cases sys.localtime_r mtime <;> rfl
  · rw [hsel]
    split_ifs with h
    · exact ⟨fun _ => h, fun _ => rfl⟩
    · exact ⟨fun e => absurd e.symm hne, fun e => absurd e h⟩
  · rw [hsel]
    split_ifs with h
    · exact ⟨fun e => absurd e hne, fun e => absurd h e⟩
    · exact ⟨fun _ => h, fun _ => rfl⟩

/-- C7 fails as stated: a modification time one hundred seconds in the future is within half
a year of `now`, and gets the old format. -/
theorem format_mtime_future_is_old :
    |(1700000000 : Int) - 1700000100| < 15778476 ∧
    select_format 1700000100 1700000000 = old_format ∧
    select_format 1700000100 1700000000 ≠ recent_format ∧
    format_mtime demo_sys 1700000100 256 1700000000 = some "%b %e  %Y" := by
  refine ⟨by decide, by decide, by decide, by decide⟩

/-! ## Theorems about the `total` line -/

theorem scan_entry_total (sys : Sys) (now : Int) (s : scan_state) (e : directory_entry) :
    (scan_entry sys now s e).total_blocks
      = if e.stat_ok then (s.total_blocks + e.stat.st_blocks) % UINTMAX_RANGE
        else s.total_blocks := by
  unfold scan_entry
  cases h : e.stat_ok <;> simp

theorem scan_foldl_total (sys : Sys) (now : Int) (entries : List directory_entry) :
    ∀ s : scan_state, s.total_blocks < UINTMAX_RANGE →
      (entries.foldl (scan_entry sys now) s).total_blocks
        = (s.total_blocks
            + ((entries.filter (fun e => e.stat_ok)).map (fun e => e.stat.st_blocks)).sum)
          % UINTMAX_RANGE := by
  induction entries with
  | nil => intro s hs; simp [Nat.mod_eq_of_lt hs]
  | cons e rest ih =>
    intro s hs
    have hlt : (scan_entry sys now s e).total_blocks < UINTMAX_RANGE := by
      rw [scan_entry_total]
      split
      · exact Nat.mod_lt _ (by decide)
      · exact hs
    rw [List.foldl_cons, ih _ hlt, scan_entry_total]
    cases h : e.stat_ok
    · simp [h]
    · simp [h, Nat.add_assoc]

theorem scan_entries_total (sys : Sys) (now : Int) (entries : List directory_entry) :
    (scan_entries sys now entries).total_blocks
      = ((entries.filter (fun e => e.stat_ok)).map (fun e => e.stat.st_blocks)).sum
        % UINTMAX_RANGE := by
  unfold scan_entries
  rw [scan_foldl_total sys now entries scan_init (by decide)]
  simp [scan_init]

theorem div_round_two (value : Nat) (h : value < UINTMAX_RANGE) :
    div_round value 2 = (value + 1) / 2 := by
  unfold div_round
  unfold UINTMAX_RANGE at *
  split_ifs with h1
  · rw [Nat.mod_eq_of_lt (by omega)]
    omega
  · omega

/-- C2 (as amended): the `total` line shows `block_size_convert` of the sum, reduced modulo
`2 ^ 64`, of `st_blocks` over the entries whose status lookup succeeded (the sum itself when it
is below `2 ^ 64`); with `S_BLKSIZE = 512` this is `div_round(S, 2)`, which is `S / 2` rounded
to nearest, a remainder of at least `1` rounding up, and the increment never wraps.  Block
counts `1, 1, 2` print `total 2`. -/
theorem total_line_spec (sys : Sys) (now : Int) (entries : List directory_entry) :
    (list_entries sys 512 now entries).head?
      = some (some ("total "
          ++ fmt_ju (block_size_convert 512
              (((entries.filter (fun e => e.stat_ok)).map (fun e => e.stat.st_blocks)).sum
                % 2 ^ 64))
          ++ "\n")) ∧
    (((entries.filter (fun e => e.stat_ok)).map (fun e => e.stat.st_blocks)).sum < 2 ^ 64 →
      (list_entries sys 512 now entries).head?
        = some (some ("total "
            ++ fmt_ju (div_round
                ((entries.filter (fun e => e.stat_ok)).map (fun e => e.stat.st_blocks)).sum 2)
            ++ "\n"))) ∧
    (∀ S : Nat, S < 2 ^ 64 →
      block_size_convert 512 S = div_round S 2 ∧
      div_round S 2 = (S + 1) / 2 ∧
      (S % 2 ≥ 1 → div_round S 2 = S / 2 + 1) ∧
      (S % 2 < 1 → div_round S 2 = S / 2) ∧
      div_round S 2 < 2 ^ 64) ∧
    (list_entries sys 512 now
        [demo_blocks_entry 1, demo_blocks_entry 1, demo_blocks_entry 2]).head?
      = some (some "total 2\n") := by
  have hconv : ∀ S : Nat, block_size_convert 512 S = div_round S 2 := by
    intro S
    unfold block_size_convert OUTPUT_BLOCK_SIZE
    simp
  have hhead : (list_entries sys 512 now entries).head?
      = some (some ("total "
          ++ fmt_ju (block_size_convert 512
              (((entries.filter (fun e => e.stat_ok)).map (fun e => e.stat.st_blocks)).sum
                % 2 ^ 64))
          ++ "\n")) := by
    unfold list_entries total_line compute_layout
    simp only [List.head?_cons]
    rw [scan_entries_total]
    rfl
  refine ⟨hhead, ?_, ?_, ?_⟩
  · intro hlt
    rw [hhead, Nat.mod_eq_of_lt hlt, hconv]
  · intro S hS
    have h2 : div_round S 2 = (S + 1) / 2 := div_round_two S hS
    refine ⟨hconv S, h2, ?_, ?_, ?_⟩
    · intro h; rw [h2]; omega
    · intro h; rw [h2]; omega
    · rw [h2]; omega
  · unfold list_entries total_line compute_layout
    simp only [List.head?_cons]
    rw [scan_entries_total]
    decide

theorem total_line_spec_witness :
    (([demo_blocks_entry 3].filter (fun e => e.stat_ok)).map (fun e => e.stat.st_blocks)).sum
      < 2 ^ 64 ∧
    (list_entries demo_sys 512 0 [demo_blocks_entry 3]).head? = some (some "total 2\n") :=
  ⟨by decide, (total_line_spec demo_sys 0 [demo_blocks_entry 3]).2.1 (by decide)⟩

/-- C2 fails as stated: three entries of `2 ^ 63 - 1` blocks each have the sum
`27670116110564327421`, whose half rounded to nearest is `13835058055282163711`; the
accumulator wraps and the line shows `4611686018427387903`. -/
theorem total_line_wraps :
    ([demo_huge_entry, demo_huge_entry, demo_huge_entry].map (fun e => e.stat.st_blocks)).sum
      = 27670116110564327421 ∧
    (27670116110564327421 + 1) / 2 = 13835058055282163711 ∧
    (list_entries demo_sys 512 0 [demo_huge_entry, demo_huge_entry, demo_huge_entry]).head?
      = some (some "total 4611686018427387903\n") ∧
    (list_entries demo_sys 512 0 [demo_huge_entry, demo_huge_entry, demo_huge_entry]).head?
      ≠ some (some ("total " ++ fmt_ju ((27670116110564327421 + 1) / 2) ++ "\n")) := by
  have h : (list_entries demo_sys 512 0 [demo_huge_entry, demo_huge_entry, demo_huge_entry]).head?
      = some (some "total 4611686018427387903\n") := by
    unfold list_entries total_line compute_layout
    simp only [List.head?_cons]
    rw [scan_entries_total]
    decide
  refine ⟨by decide, by decide, h, ?_⟩
  rw [h]
  decide

/-! ## Theorems about the first loop of `main` and the identity tables -/

theorem scan_foldl_fields (sys : Sys) (now : Int) (entries : List directory_entry) :
    ∀ s : scan_state,
      (entries.foldl (scan_entry sys now) s).mtimes
        = s.mtimes ++ entries.map (mtime_text sys now) ∧
      (entries.foldl (scan_entry sys now) s).uids
        = s.uids ++ (entries.filter (fun e => e.stat_ok)).map (fun e => e.stat.st_uid) ∧
      (entries.foldl (scan_entry sys now) s).gids
        = s.gids ++ (entries.filter (fun e => e.stat_ok)).map (fun e => e.stat.st_gid) ∧
      (entries.foldl (scan_entry sys now) s).n_uids_gids
        = s.n_uids_gids + (entries.filter (fun e => e.stat_ok)).length := by
  induction entries with
  | nil => intro s; simp
  | cons e rest ih =>
    intro s
    obtain ⟨h1, h2, h3, h4⟩ := ih (scan_entry sys now s e)
    rw [List.foldl_cons, h1, h2, h3, h4]
    unfold scan_entry
    cases h : e.stat_ok <;> simp [h, Nat.add_assoc, Nat.add_comm 1]

theorem scan_entries_fields (sys : Sys) (now : Int) (entries : List directory_entry) :
    (scan_entries sys now entries).mtimes = entries.map (mtime_text sys now) ∧
    (scan_entries sys now entries).uids
      = (entries.filter (fun e => e.stat_ok)).map (fun e => e.stat.st_uid) ∧
    (scan_entries sys now entries).gids
      = (entries.filter (fun e => e.stat_ok)).map (fun e => e.stat.st_gid) ∧
    (scan_entries sys now entries).n_uids_gids
      = (entries.filter (fun e => e.stat_ok)).length := by
  have h := scan_foldl_fields sys now entries scan_init
  unfold scan_entries
  simpa [scan_init] using h

theorem resolve_foldl (lookup : Nat → Option String) (ids : List Nat) :
    ∀ acc : List (Option String) × Nat,
      (ids.foldl (resolve_step lookup) acc).1 = acc.1 ++ ids.map lookup := by
  induction ids with
  | nil => intro acc; simp
  | cons id rest ih =>
    intro acc
    rw [List.foldl_cons, ih]
    unfold resolve_step
    cases h : lookup id <;> simp [h]

theorem resolve_names_fst (lookup : Nat → Option String) (ids : List Nat) (n : Nat) :
    (resolve_names lookup ids n).1 = (ids.take n).map lookup := by
  unfold resolve_names
  rw [resolve_foldl]
  simp

theorem bsearch_loop_finds {α : Type} {cmp : α → α → Int} (h : cmp_consistent cmp) (key : α)
    (base : List α) (n : Nat) (hn : n ≤ base.length)
    (hsorted : ∀ (i j : Nat) (x y : α), i < j → j < n → base[i]? = some x → base[j]? = some y →
      cmp x y ≤ 0) :
    ∀ (fuel l u : Nat), u ≤ n → u - l < fuel →
      (∃ (j : Nat) (x : α), l ≤ j ∧ j < u ∧ base[j]? = some x ∧ cmp key x = 0) →
      ∃ (i : Nat) (x : α), bsearch_loop key base cmp fuel l u = some i ∧ i < u ∧
        base[i]? = some x ∧ cmp key x = 0 := by
  intro fuel
  induction fuel with
  | zero => intro l u _ hf _; omega
  | succ f ih =>
    intro l u hu hf hex
    obtain ⟨j, x, hlj, hju, hjx, hkx⟩ := hex
    have hlu : l < u := by omega
    have hidx : (l + u) / 2 < base.length := by omega
    unfold bsearch_loop
    rw [if_pos hlu]
    have hget : base[(l + u) / 2]? = some (base[(l + u) / 2]) := List.getElem?_eq_getElem hidx
    simp only [hget]
    generalize hp : base[(l + u) / 2] = p at hget
    have hxk : cmp x key = 0 := h.symm hkx
    by_cases hc1 : cmp key p < 0
    · rw [if_pos hc1]
      obtain ⟨i, y, h1, h2, h3, h4⟩ := ih l ((l + u) / 2) (by omega) (by omega)
        (by
          refine ⟨j, x, hlj, ?_, hjx, hkx⟩
          by_contra hnot
          have hle : (l + u) / 2 ≤ j := by omega
          rcases Nat.eq_or_lt_of_le hle with heq | hlt
          · rw [← heq, hget] at hjx
            have : p = x := by simpa using hjx
            subst this
            omega
          · have hpx := hsorted _ _ p x hlt (by omega) hget hjx
            have hpk := h.trans p x key hpx (by omega)
            have := (h.antisymm key p).mp hc1
            omega)
      exact ⟨i, y, h1, by omega, h3, h4⟩
    · rw [if_neg hc1]
      by_cases hc2 : cmp key p > 0
      · rw [if_pos hc2]
        obtain ⟨i, y, h1, h2, h3, h4⟩ := ih ((l + u) / 2 + 1) u hu (by omega)
          (by
            refine ⟨j, x, ?_, hju, hjx, hkx⟩
            by_contra hnot
            have hle : j ≤ (l + u) / 2 := by omega
            rcases Nat.eq_or_lt_of_le hle with heq | hlt
            · rw [heq, hget] at hjx
              have : p = x := by simpa using hjx
              subst this
              omega
            · have hxp := hsorted _ _ x p hlt (by omega) hjx hget
              have hkp := h.trans key x p (by omega) hxp
              omega)
        exact ⟨i, y, h1, h2, h3, h4⟩
      · rw [if_neg hc2]
        exact ⟨(l + u) / 2, p, rfl, by omega, hget, by omega⟩

theorem bsearch_finds {α : Type} {cmp : α → α → Int} (h : cmp_consistent cmp) (key : α)
    (base : List α) (n : Nat) (hn : n ≤ base.length)
    (hsorted : (base.take n).Pairwise (fun a b => cmp a b ≤ 0))
    (hmem : ∃ x ∈ base.take n, cmp key x = 0) :
    ∃ (i : Nat) (x : α), bsearch key base n cmp = some i ∧ i < n ∧
      base[i]? = some x ∧ cmp key x = 0 := by
  unfold bsearch
  apply bsearch_loop_finds h key base n hn _ (n + 1) 0 n (le_refl _) (by omega)
  · obtain ⟨x, hx, hkx⟩ := hmem
    obtain ⟨j, hj, hjx⟩ := List.getElem_of_mem hx
    have hjn : j < n := by
      have := List.length_take_le n base
      omega
    refine ⟨j, x, Nat.zero_le _, hjn, ?_, hkx⟩
    rw [← hjx, List.getElem_take, List.getElem?_eq_getElem]
  · intro i j x y hij hjn hx hy
    have hi : (base.take n)[i]? = some x := by
      rw [List.getElem?_take_of_lt (by omega)]; exact hx
    have hj : (base.take n)[j]? = some y := by
      rw [List.getElem?_take_of_lt hjn]; exact hy
    have hlen : (base.take n).length = n := by simp [Nat.min_eq_left hn]
    have hi2 : i < (base.take n).length := by omega
    have hj2 : j < (base.take n).length := by omega
    rw [List.getElem?_eq_getElem hi2] at hi
    rw [List.getElem?_eq_getElem hj2] at hj
    have := List.pairwise_iff_getElem.mp hsorted i j hi2 hj2 hij
    simp only [Option.some.injEq] at hi hj
    rw [hi, hj] at this
    exact this

/-- The table built from a list of identifiers by `qsort`, `unique` and a resolution loop
answers, for every identifier of the list, with the slot of that identifier. -/
theorem table_lookup {cmp : Nat → Nat → Int} (hcmp : cmp_consistent cmp)
    (heq : ∀ a b, cmp a b = 0 ↔ a = b) (lookup : Nat → Option String) (ids : List Nat)
    (key : Nat) (hkey : key ∈ ids) :
    ∃ i : Nat,
      bsearch key (unique (qsort ids ids.length cmp) ids.length 4 cmp).2
        (unique (qsort ids ids.length cmp) ids.length 4 cmp).1 cmp = some i ∧
      i < (unique (qsort ids ids.length cmp) ids.length 4 cmp).1 ∧
      (unique (qsort ids ids.length cmp) ids.length 4 cmp).2[i]? = some key ∧
      (resolve_names lookup (unique (qsort ids ids.length cmp) ids.length 4 cmp).2
        (unique (qsort ids ids.length cmp) ids.length 4 cmp).1).1[i]? = some (lookup key) := by
  have hlen : (qsort ids ids.length cmp).length = ids.length := qsort_length _ _ _
  have hsorted : ((qsort ids ids.length cmp).take ids.length).Pairwise (fun a b => cmp a b ≤ 0) :=
    qsort_sorted hcmp.to_total_preorder ids ids.length (le_refl _)
  have hspec := unique_sorted_core (qsort ids ids.length cmp) ids.length 4 cmp (by decide)
    (le_of_eq hlen.symm) hcmp hsorted
  obtain ⟨hk, hstrict, hsub, hcover, hlen2⟩ := hspec
  generalize unique (qsort ids ids.length cmp) ids.length 4 cmp = r at *
  have hkeyq : key ∈ (qsort ids ids.length cmp).take ids.length := by
    rw [List.take_of_length_le (le_of_eq hlen)]
    exact (qsort_perm ids ids.length cmp).mem_iff.mpr hkey
  obtain ⟨y, hy, hyk⟩ := hcover key hkeyq
  have hrn : r.1 ≤ r.2.length := by omega
  obtain ⟨i, x, h1, h2, h3, h4⟩ := bsearch_finds hcmp key r.2 r.1 hrn
    (hstrict.imp (fun {a b} hab => le_of_lt hab)) ⟨y, hy, hcmp.symm hyk⟩
  have hx : x = key := ((heq key x).mp h4).symm
  subst hx
  refine ⟨i, h1, h2, h3, ?_⟩
  rw [resolve_names_fst, List.getElem?_map, List.getElem?_take_of_lt h2, h3]
  rfl

theorem compute_layout_uid_table (sys : Sys) (now : Int) (entries : List directory_entry) :
    (compute_layout sys now entries).uids
      = (unique (qsort ((entries.filter (fun e => e.stat_ok)).map (fun e => e.stat.st_uid))
          ((entries.filter (fun e => e.stat_ok)).map (fun e => e.stat.st_uid)).length uid_cmp)
          ((entries.filter (fun e => e.stat_ok)).map (fun e => e.stat.st_uid)).length 4 uid_cmp).2 ∧
    (compute_layout sys now entries).n_uids
      = (unique (qsort ((entries.filter (fun e => e.stat_ok)).map (fun e => e.stat.st_uid))
          ((entries.filter (fun e => e.stat_ok)).map (fun e => e.stat.st_uid)).length uid_cmp)
          ((entries.filter (fun e => e.stat_ok)).map (fun e => e.stat.st_uid)).length 4 uid_cmp).1 ∧
    (compute_layout sys now entries).uid_names
      = (resolve_names sys.getpwuid (compute_layout sys now entries).uids
          (compute_layout sys now entries).n_uids).1 ∧
    (compute_layout sys now entries).max_uid_name
      = (resolve_names sys.getpwuid (compute_layout sys now entries).uids
          (compute_layout sys now entries).n_uids).2 := by
  obtain ⟨_, h2, _, h4⟩ := scan_entries_fields sys now entries
  unfold compute_layout
  simp only [h2, h4, List.length_map]
  exact ⟨trivial, trivial, trivial, trivial⟩

theorem compute_layout_gid_table (sys : Sys) (now : Int) (entries : List directory_entry) :
    (compute_layout sys now entries).gids
      = (unique (qsort ((entries.filter (fun e => e.stat_ok)).map (fun e => e.stat.st_gid))
          ((entries.filter (fun e => e.stat_ok)).map (fun e => e.stat.st_gid)).length gid_cmp)
          ((entries.filter (fun e => e.stat_ok)).map (fun e => e.stat.st_gid)).length 4 gid_cmp).2 ∧
    (compute_layout sys now entries).n_gids
      = (unique (qsort ((entries.filter (fun e => e.stat_ok)).map (fun e => e.stat.st_gid))
          ((entries.filter (fun e => e.stat_ok)).map (fun e => e.stat.st_gid)).length gid_cmp)
          ((entries.filter (fun e => e.stat_ok)).map (fun e => e.stat.st_gid)).length 4 gid_cmp).1 ∧
    (compute_layout sys now entries).gid_names
      = (resolve_names sys.getgrgid (compute_layout sys now entries).gids
          (compute_layout sys now entries).n_gids).1 ∧
    (compute_layout sys now entries).max_gid_name
      = (resolve_names sys.getgrgid (compute_layout sys now entries).gids
          (compute_layout sys now entries).n_gids).2 := by
  obtain ⟨_, _, h3, h4⟩ := scan_entries_fields sys now entries
  unfold compute_layout
  simp only [h3, h4, List.length_map]
  exact ⟨trivial, trivial, trivial, trivial⟩

/-- The owner slot found for an entry with a successful status. -/
theorem uid_slot_found (sys : Sys) (now : Int) (entries : List directory_entry)
    (e : directory_entry) (he : e ∈ entries) (hok : e.stat_ok = true) :
    ∃ i : Nat,
      bsearch e.stat.st_uid (compute_layout sys now entries).uids
        (compute_layout sys now entries).n_uids uid_cmp = some i ∧
      i < (compute_layout sys now entries).n_uids ∧
      (compute_layout sys now entries).uids[i]? = some e.stat.st_uid ∧
      (compute_layout sys now entries).uid_names[i]? = some (sys.getpwuid e.stat.st_uid) := by
  obtain ⟨h1, h2, h3, _⟩ := compute_layout_uid_table sys now entries
  have hmem : e.stat.st_uid ∈ (entries.filter (fun e => e.stat_ok)).map (fun e => e.stat.st_uid) :=
    List.mem_map.mpr ⟨e, List.mem_filter.mpr ⟨he, hok⟩, rfl⟩
  obtain ⟨i, hi⟩ := table_lookup uid_cmp_consistent uid_cmp_eq_zero sys.getpwuid _ _ hmem
  refine ⟨i, ?_⟩
  rw [h3, h1, h2]
  exact hi

/-- The group slot found for an entry with a successful status. -/
theorem gid_slot_found (sys : Sys) (now : Int) (entries : List directory_entry)
    (e : directory_entry) (he : e ∈ entries) (hok : e.stat_ok = true) :
    ∃ i : Nat,
      bsearch e.stat.st_gid (compute_layout sys now entries).gids
        (compute_layout sys now entries).n_gids gid_cmp = some i ∧
      i < (compute_layout sys now entries).n_gids ∧
      (compute_layout sys now entries).gids[i]? = some e.stat.st_gid ∧
      (compute_layout sys now entries).gid_names[i]? = some (sys.getgrgid e.stat.st_gid) := by
  obtain ⟨h1, h2, h3, _⟩ := compute_layout_gid_table sys now entries
  have hmem : e.stat.st_gid ∈ (entries.filter (fun e => e.stat_ok)).map (fun e => e.stat.st_gid) :=
    List.mem_map.mpr ⟨e, List.mem_filter.mpr ⟨he, hok⟩, rfl⟩
  obtain ⟨i, hi⟩ := table_lookup gid_cmp_consistent gid_cmp_eq_zero sys.getgrgid _ _ hmem
  refine ⟨i, ?_⟩
  rw [h3, h1, h2]
  exact hi

theorem uid_name_of_ok (sys : Sys) (now : Int) (entries : List directory_entry)
    (e : directory_entry) (he : e ∈ entries) (hok : e.stat_ok = true) :
    lookup_name e.stat_ok e.stat.st_uid (compute_layout sys now entries).uids
      (compute_layout sys now entries).n_uids (compute_layout sys now entries).uid_names uid_cmp
      = sys.getpwuid e.stat.st_uid := by
  obtain ⟨i, h1, _, _, h4⟩ := uid_slot_found sys now entries e he hok
  unfold lookup_name
  rw [hok, if_pos rfl, h1]
  simp only [h4]
  rfl

theorem gid_name_of_ok (sys : Sys) (now : Int) (entries : List directory_entry)
    (e : directory_entry) (he : e ∈ entries) (hok : e.stat_ok = true) :
    lookup_name e.stat_ok e.stat.st_gid (compute_layout sys now entries).gids
      (compute_layout sys now entries).n_gids (compute_layout sys now entries).gid_names gid_cmp
      = sys.getgrgid e.stat.st_gid := by
  obtain ⟨i, h1, _, _, h4⟩ := gid_slot_found sys now entries e he hok
  unfold lookup_name
  rw [hok, if_pos rfl, h1]
  simp only [h4]
  rfl

/-- C10: for every entry with a successful status, the `bsearch` of its owner identifier in
the sorted and compacted array of owner identifiers succeeds, the slot found holds that
identifier, and the name read is the answer of `getpwuid` for that identifier; the same holds
for group identifiers and `getgrgid`. -/
theorem identity_lookup_spec (sys : Sys) (now : Int) (entries : List directory_entry)
    (e : directory_entry) (he : e ∈ entries) (hok : e.stat_ok = true) :
    (∃ i : Nat,
      bsearch e.stat.st_uid (compute_layout sys now entries).uids
        (compute_layout sys now entries).n_uids uid_cmp = some i ∧
      i < (compute_layout sys now entries).n_uids ∧
      (compute_layout sys now entries).uids[i]? = some e.stat.st_uid ∧
      (compute_layout sys now entries).uid_names[i]? = some (sys.getpwuid e.stat.st_uid)) ∧
    (∃ i : Nat,
      bsearch e.stat.st_gid (compute_layout sys now entries).gids
        (compute_layout sys now entries).n_gids gid_cmp = some i ∧
      i < (compute_layout sys now entries).n_gids ∧
      (compute_layout sys now entries).gids[i]? = some e.stat.st_gid ∧
      (compute_layout sys now entries).gid_names[i]? = some (sys.getgrgid e.stat.st_gid)) ∧
    (∀ (i : Nat) (b : link_buf),
      (render_entry sys (compute_layout sys now entries) i e b).2.uid_name
        = sys.getpwuid e.stat.st_uid ∧
      (render_entry sys (compute_layout sys now entries) i e b).2.gid_name
        = sys.getgrgid e.stat.st_gid) ∧
    (compute_layout sys now entries).uids
      = (unique (qsort ((entries.filter (fun e => e.stat_ok)).map (fun e => e.stat.st_uid))
          ((entries.filter (fun e => e.stat_ok)).map (fun e => e.stat.st_uid)).length uid_cmp)
          ((entries.filter (fun e => e.stat_ok)).map (fun e => e.stat.st_uid)).length 4 uid_cmp).2 ∧
    (compute_layout sys now entries).gids
      = (unique (qsort ((entries.filter (fun e => e.stat_ok)).map (fun e => e.stat.st_gid))
          ((entries.filter (fun e => e.stat_ok)).map (fun e => e.stat.st_gid)).length gid_cmp)
          ((entries.filter (fun e => e.stat_ok)).map (fun e => e.stat.st_gid)).length 4 gid_cmp).2 :=
  ⟨uid_slot_found sys now entries e he hok, gid_slot_found sys now entries e he hok,
    fun _ _ => ⟨uid_name_of_ok sys now entries e he hok, gid_name_of_ok sys now entries e he hok⟩,
    (compute_layout_uid_table sys now entries).1, (compute_layout_gid_table sys now entries).1⟩

theorem identity_lookup_spec_witness :
    bsearch 0 (compute_layout demo_sys 1700000000
        [read_entry demo_sys "dirA", read_entry demo_sys "fileB", read_entry demo_sys "gone"]).uids
      (compute_layout demo_sys 1700000000
        [read_entry demo_sys "dirA", read_entry demo_sys "fileB", read_entry demo_sys "gone"]).n_uids
      uid_cmp = some 0 ∧
    (∀ (i : Nat) (b : link_buf),
      (render_entry demo_sys (compute_layout demo_sys 1700000000
        [read_entry demo_sys "dirA", read_entry demo_sys "fileB", read_entry demo_sys "gone"])
        i (read_entry demo_sys "dirA") b).2.uid_name = demo_sys.getpwuid 0 ∧
      (render_entry demo_sys (compute_layout demo_sys 1700000000
        [read_entry demo_sys "dirA", read_entry demo_sys "fileB", read_entry demo_sys "gone"])
        i (read_entry demo_sys "dirA") b).2.gid_name = demo_sys.getgrgid 0) :=
  ⟨by decide,
    (identity_lookup_spec demo_sys 1700000000
      [read_entry demo_sys "dirA", read_entry demo_sys "fileB", read_entry demo_sys "gone"]
      (read_entry demo_sys "dirA") (by decide) (by decide)).2.2.1⟩

/-! ## Theorems about the link target buffer -/

theorem grow_link_buf_capacity_le (realloc_ok : Bool) (st_size : Nat) (b : link_buf) :
    b.readlink_buf_capacity ≤ (grow_link_buf realloc_ok st_size b).readlink_buf_capacity := by
  unfold grow_link_buf
  split_ifs with h1 h2
  · exact le_of_lt h1
  · exact le_refl _
  · exact le_refl _

theorem grow_link_buf_length (realloc_ok : Bool) (st_size : Nat) (b : link_buf)
    (hinv : b.readlink_buf.length = b.readlink_buf_capacity) :
    (grow_link_buf realloc_ok st_size b).readlink_buf.length
      = (grow_link_buf realloc_ok st_size b).readlink_buf_capacity := by
  unfold grow_link_buf
  split_ifs with h1 h2
  · simp only [List.length_append, List.length_replicate, hinv]
    omega
  · exact hinv
  · exact hinv

theorem grow_link_buf_room (realloc_ok : Bool) (st_size : Nat) (b : link_buf)
    (h : st_size < b.readlink_buf_capacity ∨ realloc_ok = true) :
    st_size < (grow_link_buf realloc_ok st_size b).readlink_buf_capacity := by
  unfold grow_link_buf
  split_ifs with h1 h2
  · exact Nat.lt_succ_self _
  · rcases h with h | h
    · omega
    · exact absurd h h2
  · omega

theorem grow_link_buf_failed (st_size : Nat) (b : link_buf) :
    grow_link_buf false st_size b = b := by
  unfold grow_link_buf
  split_ifs <;> simp_all

theorem takeWhile_terminated (r rest : List Char) (h : ∀ c ∈ r, c ≠ Char.ofNat 0) :
    (r ++ Char.ofNat 0 :: rest).takeWhile (fun c => decide (c ≠ Char.ofNat 0)) = r := by
  induction r with
  | nil => simp
  | cons c cs ih =>
    have hc : c ≠ Char.ofNat 0 := h c (List.mem_cons_self _ _)
    have := ih (fun d hd => h d (List.mem_cons_of_mem _ hd))
    rw [List.cons_append, List.takeWhile_cons_of_pos (by simpa using hc), this]

theorem stored_bytes_terminated (buf : List Char) (r : String) (hlen : r.length < buf.length) :
    (store_bytes buf r).set r.length (Char.ofNat 0)
      = r.data ++ Char.ofNat 0 :: buf.drop (r.length + 1) := by
  unfold store_bytes
  have h1 : r.data.length = r.length := rfl
  rw [List.set_append_right _ _ (by omega), h1, Nat.sub_self]
  congr 1
  cases hd : buf.drop r.length with
  | nil =>
    have := List.drop_eq_nil_iff.mp hd
    omega
  | cons x xs =>
    have : buf.drop (r.length + 1) = xs := by
      rw [← List.drop_drop, hd]; rfl
    simp [this]

theorem c_str_stored (buf : List Char) (r : String) (hlen : r.length < buf.length)
    (hnul : ∀ c ∈ r.data, c ≠ Char.ofNat 0) :
    c_str ((store_bytes buf r).set r.length (Char.ofNat 0)) = r := by
  unfold c_str
  rw [stored_bytes_terminated buf r hlen, takeWhile_terminated r.data _ hnul]

theorem stored_bytes_length (buf : List Char) (r : String) (hlen : r.length < buf.length) :
    ((store_bytes buf r).set r.length (Char.ofNat 0)).length = buf.length := by
  rw [List.length_set]
  unfold store_bytes
  have h1 : r.data.length = r.length := rfl
  rw [List.length_append, List.length_drop, h1]
  omega

theorem read_into_capacity (sys : Sys) (entry : directory_entry) (b : link_buf) :
    (read_into sys entry b).1.readlink_buf_capacity = b.readlink_buf_capacity := by
  unfold read_into
  split_ifs
  · cases sys.readlink entry.name (b.readlink_buf_capacity - 1) <;> rfl
  · rfl

theorem read_into_length (sys : Sys) (entry : directory_entry) (b : link_buf)
    (hinv : b.readlink_buf.length = b.readlink_buf_capacity)
    (hcontract : ∀ name bufsiz r, sys.readlink name bufsiz = some r → r.length ≤ bufsiz) :
    (read_into sys entry b).1.readlink_buf.length = b.readlink_buf_capacity := by
  unfold read_into
  split_ifs with h
  · cases hr : sys.readlink entry.name (b.readlink_buf_capacity - 1) with
    | none => exact hinv
    | some r =>
      have := hcontract _ _ _ hr
      simp only
      rw [stored_bytes_length _ _ (by omega)]
      exact hinv
  · exact hinv

theorem read_link_capacity (sys : Sys) (realloc_ok : Bool) (entry : directory_entry)
    (b : link_buf) :
    (read_link sys realloc_ok entry b).1.readlink_buf_capacity
      = if entry.stat_ok && S_ISLNK entry.stat.st_mode
        then (grow_link_buf realloc_ok entry.stat.st_size b).readlink_buf_capacity
        else b.readlink_buf_capacity := by
  unfold read_link
  split_ifs
  · exact read_into_capacity _ _ _
  · rfl

theorem read_link_capacity_le (sys : Sys) (realloc_ok : Bool) (entry : directory_entry)
    (b : link_buf) :
    b.readlink_buf_capacity ≤ (read_link sys realloc_ok entry b).1.readlink_buf_capacity := by
  rw [read_link_capacity]
  split_ifs
  · exact grow_link_buf_capacity_le _ _ _
  · exact le_refl _

theorem read_link_length (sys : Sys) (realloc_ok : Bool) (entry : directory_entry)
    (b : link_buf) (hinv : b.readlink_buf.length = b.readlink_buf_capacity)
    (hcontract : ∀ name bufsiz r, sys.readlink name bufsiz = some r → r.length ≤ bufsiz) :
    (read_link sys realloc_ok entry b).1.readlink_buf.length
      = (read_link sys realloc_ok entry b).1.readlink_buf_capacity := by
  have hg := grow_link_buf_length realloc_ok entry.stat.st_size b hinv
  unfold read_link
  split_ifs with h1
  · rw [read_into_length sys entry _ hg hcontract, read_into_capacity]
  · exact hinv

theorem render_loop_cons (sys : Sys) (l : layout) (i : Nat) (e : directory_entry)
    (rest : List directory_entry) (b : link_buf) :
    render_loop sys l i (e :: rest) b
      = ((render_entry sys l i e b).2
            :: (render_loop sys l (i + 1) rest (render_entry sys l i e b).1).1,
          (render_loop sys l (i + 1) rest (render_entry sys l i e b).1).2) := by
  conv_lhs => unfold render_loop

theorem render_loop_capacity_le (sys : Sys) (l : layout) (entries : List directory_entry) :
    ∀ (i : Nat) (b : link_buf),
      b.readlink_buf_capacity ≤ (render_loop sys l i entries b).2.readlink_buf_capacity := by
  induction entries with
  | nil => intro i b; simp [render_loop]
  | cons e rest ih =>
    intro i b
    unfold render_loop
    exact le_trans (read_link_capacity_le sys (sys.realloc_ok i) e b) (ih (i + 1) _)

theorem render_loop_length (sys : Sys) (l : layout)
    (hcontract : ∀ name bufsiz r, sys.readlink name bufsiz = some r → r.length ≤ bufsiz)
    (entries : List directory_entry) :
    ∀ (i : Nat) (b : link_buf), b.readlink_buf.length = b.readlink_buf_capacity →
      (render_loop sys l i entries b).2.readlink_buf.length
        = (render_loop sys l i entries b).2.readlink_buf_capacity := by
  induction entries with
  | nil => intro i b h; simpa [render_loop] using h
  | cons e rest ih =>
    intro i b h
    unfold render_loop
    exact ih (i + 1) _ (read_link_length sys (sys.realloc_ok i) e b h hcontract)

theorem render_loop_append (sys : Sys) (l : layout) (pre : List directory_entry) :
    ∀ (i : Nat) (b : link_buf) (post : List directory_entry),
      render_loop sys l i (pre ++ post) b
        = ((render_loop sys l i pre b).1
            ++ (render_loop sys l (i + pre.length) post (render_loop sys l i pre b).2).1,
           (render_loop sys l (i + pre.length) post (render_loop sys l i pre b).2).2) := by
  induction pre with
  | nil => intro i b post; simp [render_loop]
  | cons e rest ih =>
    intro i b post
    have h := ih (i + 1) (render_entry sys l i e b).1 post
    have harith : i + 1 + rest.length = i + (rest.length + 1) := by omega
    rw [harith] at h
    rw [List.cons_append, render_loop_cons, render_loop_cons, h]
    simp only [List.length_cons, List.cons_append]

/-! ## Theorems about the allocations of `main` -/

theorem scan_loop_some (sys : Sys) (now : Int) (entries : List directory_entry) :
    ∀ (k : Nat) (s r : scan_state), scan_loop sys now entries k s = some r →
      r = entries.foldl (scan_entry sys now) s := by
  induction entries with
  | nil =>
    intro k s r h
    simp only [scan_loop, Option.some.injEq] at h
    simp [h]
  | cons e rest ih =>
    intro k s r h
    unfold scan_loop at h
    split_ifs at h
    exact ih _ _ _ h

theorem scan_loop_ok (sys : Sys) (now : Int) (hmain : ∀ k, sys.main_alloc_ok k = true)
    (entries : List directory_entry) :
    ∀ (k : Nat) (s : scan_state),
      scan_loop sys now entries k s = some (entries.foldl (scan_entry sys now) s) := by
  induction entries with
  | nil => intro k s; rfl
  | cons e rest ih =>
    intro k s
    unfold scan_loop
    rw [if_pos (hmain k), ih]
    rfl

theorem resolve_loop_some (sys : Sys) (lookup : Nat → Option String) (ids : List Nat) :
    ∀ (k : Nat) (acc r : List (Option String) × Nat) (k2 : Nat),
      resolve_loop sys lookup ids k acc = some (r, k2) →
      r = ids.foldl (resolve_step lookup) acc := by
  induction ids with
  | nil =>
    intro k acc r k2 h
    simp only [resolve_loop, Option.some.injEq, Prod.mk.injEq] at h
    simp [h.1]
  | cons id rest ih =>
    intro k acc r k2 h
    unfold resolve_loop at h
    split at h
    · split_ifs at h
      exact ih _ _ _ _ h
    · exact ih _ _ _ _ h

theorem resolve_loop_ok (sys : Sys) (lookup : Nat → Option String)
    (hmain : ∀ k, sys.main_alloc_ok k = true) (ids : List Nat) :
    ∀ (k : Nat) (acc : List (Option String) × Nat), ∃ k2 : Nat,
      resolve_loop sys lookup ids k acc = some (ids.foldl (resolve_step lookup) acc, k2) := by
  induction ids with
  | nil => intro k acc; exact ⟨k, rfl⟩
  | cons id rest ih =>
    intro k acc
    unfold resolve_loop
    split
    · rw [if_pos (hmain k)]
      exact ih _ _
    · exact ih _ _

theorem resolve_names_alloc_some (sys : Sys) (lookup : Nat → Option String) (ids : List Nat)
    (n k : Nat) (r : List (Option String) × Nat) (k2 : Nat)
    (h : resolve_names_alloc sys lookup ids n k = some (r, k2)) :
    r = resolve_names lookup ids n := by
  unfold resolve_names_alloc at h
  split_ifs at h
  exact resolve_loop_some sys lookup _ _ _ _ _ h

theorem resolve_names_alloc_ok (sys : Sys) (lookup : Nat → Option String)
    (hmain : ∀ k, sys.main_alloc_ok k = true) (ids : List Nat) (n k : Nat) :
    ∃ k2 : Nat, resolve_names_alloc sys lookup ids n k = some (resolve_names lookup ids n, k2) := by
  unfold resolve_names_alloc
  rw [if_neg (by simp [hmain k])]
  exact resolve_loop_ok sys lookup hmain _ _ _

/-- Whatever the allocations do, when lines 150-276 of `main` reach the first `fprintf`, `time`
has answered and the values are those of `compute_layout`. -/
theorem prepare_ready (sys : Sys) (entries : List directory_entry) (l : layout)
    (h : prepare sys entries = prepared.ready l) :
    ∃ now : Int, sys.time = some now ∧ l = compute_layout sys now entries := by
  unfold prepare at h
  by_cases h1 : (!sys.main_alloc_ok 0 || !sys.main_alloc_ok 1) = true
  · rw [if_pos h1] at h
    cases h
  · rw [if_neg h1] at h
    cases htime : sys.time with
    | none =>
      simp only [htime] at h
      cases h
    | some now =>
      refine ⟨now, rfl, ?_⟩
      simp only [htime] at h
      by_cases h2 : (!sys.main_alloc_ok 2 && decide (entries.length > 0)) = true
      · rw [if_pos h2] at h
        cases h
      · rw [if_neg h2] at h
        cases hscan : scan_loop sys now entries 3 scan_init with
        | none =>
          simp only [hscan] at h
          cases h
        | some sc =>
          have hsc : sc = scan_entries sys now entries :=
            scan_loop_some sys now entries 3 _ _ hscan
          simp only [hscan] at h
          cases hu : resolve_names_alloc sys sys.getpwuid
              (unique (qsort sc.uids sc.n_uids_gids uid_cmp) sc.n_uids_gids 4 uid_cmp).2
              (unique (qsort sc.uids sc.n_uids_gids uid_cmp) sc.n_uids_gids 4 uid_cmp).1
              (3 + entries.length) with
          | none =>
            simp only [hu] at h
            cases h
          | some ru =>
            obtain ⟨un, k⟩ := ru
            have hun := resolve_names_alloc_some sys _ _ _ _ _ _ hu
            simp only [hu] at h
            cases hg : resolve_names_alloc sys sys.getgrgid
                (unique (qsort sc.gids sc.n_uids_gids gid_cmp) sc.n_uids_gids 4 gid_cmp).2
                (unique (qsort sc.gids sc.n_uids_gids gid_cmp) sc.n_uids_gids 4 gid_cmp).1 k with
            | none =>
              simp only [hg] at h
              cases h
            | some rg =>
              obtain ⟨gn, k2⟩ := rg
              have hgn := resolve_names_alloc_some sys _ _ _ _ _ _ hg
              simp only [hg, prepared.ready.injEq] at h
              rw [← h, hun, hgn, hsc]
              rfl

/-- When `time` answers and no allocation of `main` fails, lines 150-276 of `main` reach the
first `fprintf` with the values of `compute_layout`. -/
theorem prepare_ok (sys : Sys) (entries : List directory_entry) (now : Int)
    (hmain : ∀ k, sys.main_alloc_ok k = true) (htime : sys.time = some now) :
    prepare sys entries = prepared.ready (compute_layout sys now entries) := by
  obtain ⟨k, hu⟩ := resolve_names_alloc_ok sys sys.getpwuid hmain
    (unique (qsort (scan_entries sys now entries).uids (scan_entries sys now entries).n_uids_gids
      uid_cmp) (scan_entries sys now entries).n_uids_gids 4 uid_cmp).2
    (unique (qsort (scan_entries sys now entries).uids (scan_entries sys now entries).n_uids_gids
      uid_cmp) (scan_entries sys now entries).n_uids_gids 4 uid_cmp).1 (3 + entries.length)
  obtain ⟨k2, hg⟩ := resolve_names_alloc_ok sys sys.getgrgid hmain
    (unique (qsort (scan_entries sys now entries).gids (scan_entries sys now entries).n_uids_gids
      gid_cmp) (scan_entries sys now entries).n_uids_gids 4 gid_cmp).2
    (unique (qsort (scan_entries sys now entries).gids (scan_entries sys now entries).n_uids_gids
      gid_cmp) (scan_entries sys now entries).n_uids_gids 4 gid_cmp).1 k
  have hscan : scan_loop sys now entries 3 scan_init = some (scan_entries sys now entries) :=
    scan_loop_ok sys now hmain entries 3 scan_init
  unfold prepare
  simp only [hmain, htime, hscan, Bool.not_true, Bool.or_self, Bool.false_eq_true, if_false,
    Bool.false_and, hu, hg]
  rfl

/-- Whatever the environment does, when `main` exits with success the directory was read,
`time` answered, and the output is the `total` line and the entry lines of the sorted
entries with the values of `compute_layout`. -/
theorem main_success_output (sys : Sys) (S_BLKSIZE argc : Nat)
    (h : (main sys S_BLKSIZE argc).1 = EXIT_SUCCESS) :
    argc ≤ 1 ∧
    ∃ (arr : directory_entry_array) (now : Int),
      directory_entries_read sys directory_entries_init = (true, arr) ∧
      sys.time = some now ∧
      main sys S_BLKSIZE argc
        = (EXIT_SUCCESS,
            list_entries sys S_BLKSIZE now (qsort arr.entries arr.n (entry_cmp sys.strcoll))) := by
  have hne : EXIT_FAILURE ≠ EXIT_SUCCESS := by decide
  unfold main at h ⊢
  by_cases hargc : argc > 1
  · rw [if_pos hargc] at h
    exact absurd h hne
  · rw [if_neg hargc] at h ⊢
    refine ⟨by omega, ?_⟩
    cases hrd : directory_entries_read sys directory_entries_init with
    | mk ok arr =>
      cases ok with
      | false =>
        simp only [hrd] at h
        exact absurd h hne
      | true =>
        simp only [hrd] at h ⊢
        cases hp : prepare sys (qsort arr.entries arr.n (entry_cmp sys.strcoll)) with
        | failure =>
          simp only [hp] at h
          exact absurd h hne
        | undefined =>
          simp only [hp] at h
          exact absurd h hne
        | ready l =>
          obtain ⟨now, htime, hl⟩ := prepare_ready sys _ l hp
          refine ⟨arr, now, rfl, htime, ?_⟩
          simp only []
          rw [hl]
          rfl

/-- In the demonstration directory `main` makes thirteen allocations.  When exactly one of
them fails `main` exits with failure and writes nothing; the failure of the third one, the
unchecked `calloc` of `mtimes`, makes the behaviour undefined. -/
theorem main_allocation_failures :
    (List.range 14).map
        (fun j => main { demo_sys_named with main_alloc_ok := fun k => decide (k ≠ j) } 512 1)
      = [(EXIT_FAILURE, []), (EXIT_FAILURE, []), (EXIT_FAILURE, [none]), (EXIT_FAILURE, []),
         (EXIT_FAILURE, []), (EXIT_FAILURE, []), (EXIT_FAILURE, []), (EXIT_FAILURE, []),
         (EXIT_FAILURE, []), (EXIT_FAILURE, []), (EXIT_FAILURE, []), (EXIT_FAILURE, []),
         (EXIT_FAILURE, []), main demo_sys_named 512 1] := by
  decide

/-! ## Theorems about the rendered lines -/

theorem render_loop_rows_length (sys : Sys) (l : layout) (entries : List directory_entry) :
    ∀ (i : Nat) (b : link_buf), (render_loop sys l i entries b).1.length = entries.length := by
  induction entries with
  | nil => intro i b; simp [render_loop]
  | cons e rest ih =>
    intro i b
    rw [render_loop_cons]
    simp [ih]

/-- Row `j` of the second loop is the row of entry `j`, rendered with some buffer. -/
theorem render_loop_row (sys : Sys) (l : layout) (entries : List directory_entry) (j : Nat)
    (e : directory_entry) (he : entries[j]? = some e) :
    ∃ b : link_buf,
      (render_loop sys l 0 entries link_buf_init).1[j]? = some (render_entry sys l j e b).2 := by
  have hj : j < entries.length := by
    by_contra hnot
    rw [List.getElem?_eq_none (by omega)] at he
    exact absurd he (by simp)
  have hsplit : entries = entries.take j ++ e :: entries.drop (j + 1) := by
    have h1 : entries[j] = e := by
      rw [List.getElem?_eq_getElem hj] at he
      exact Option.some.inj he
    rw [← h1, List.getElem_cons_drop _ _ hj, List.take_append_drop]
  have hlen : (entries.take j).length = j := by
    rw [List.length_take]; omega
  refine ⟨(render_loop sys l 0 (entries.take j) link_buf_init).2, ?_⟩
  have happ := render_loop_append sys l (entries.take j) 0 link_buf_init
    (e :: entries.drop (j + 1))
  rw [← hsplit, render_loop_cons, hlen, Nat.zero_add] at happ
  rw [happ]
  simp only
  rw [List.getElem?_append_right (by rw [render_loop_rows_length, hlen])]
  rw [render_loop_rows_length, hlen, Nat.sub_self]
  simp

theorem list_entries_length (sys : Sys) (S_BLKSIZE : Nat) (now : Int)
    (entries : List directory_entry) :
    (list_entries sys S_BLKSIZE now entries).length = entries.length + 1 := by
  unfold list_entries
  simp [render_loop_rows_length]

theorem list_entries_line (sys : Sys) (S_BLKSIZE : Nat) (now : Int)
    (entries : List directory_entry) (j : Nat) (e : directory_entry)
    (he : entries[j]? = some e) :
    ∃ b : link_buf,
      (list_entries sys S_BLKSIZE now entries)[j + 1]?
        = some (print_row (compute_layout sys now entries)
            (render_entry sys (compute_layout sys now entries) j e b).2) := by
  obtain ⟨b, hb⟩ := render_loop_row sys (compute_layout sys now entries) entries j e he
  refine ⟨b, ?_⟩
  unfold list_entries
  simp only [List.getElem?_cons_succ, List.getElem?_map, hb, Option.map_some']

theorem layout_mtime (sys : Sys) (now : Int) (entries : List directory_entry) (j : Nat)
    (e : directory_entry) (he : entries[j]? = some e) :
    (compute_layout sys now entries).mtimes[j]? = some (mtime_text sys now e) := by
  have h : (compute_layout sys now entries).mtimes = entries.map (mtime_text sys now) :=
    (scan_entries_fields sys now entries).1
  rw [h, List.getElem?_map, he]
  rfl

/-- The arguments given to `fprintf` for an entry whose status lookup failed. -/
theorem render_entry_failed (sys : Sys) (l : layout) (i : Nat) (name : String) (b : link_buf) :
    render_entry sys l i
        { stat := stat_zero, stat_ok := false, is_dir := false, name := name } b
      = (b, { mode_buf := "??????????", st_nlink := 0, uid_name := some "?",
              gid_name := some "?", st_size := 0, mtime := l.mtimes[i]?, name := name,
              link := none }) := by
  unfold render_entry read_link lookup_name
  simp only [Bool.false_and, Bool.false_eq_true, if_false]
  rfl

/-- C6 (as amended): when the directory is read, no allocation fails and the time is
obtained, `main` exits with success, whatever `lstat` answers, and writes one line per
collected entry; the line of an entry whose `lstat` failed has the mode `??????????`, the link
count and the size printed as `0`, `?` for owner, group and time, and no ` -> ` part. -/
theorem failed_entry_line (sys : Sys) (S_BLKSIZE argc : Nat) (dir : DIR) (now : Int)
    (entries : List directory_entry) (l : layout)
    (hargc : argc ≤ 1) (hopen : sys.opendir = some dir) (hread : dir.read_error = false)
    (halloc : ∀ k, sys.alloc_ok k = true) (hclose : sys.closedir_ok = true)
    (hmain : ∀ k, sys.main_alloc_ok k = true) (htime : sys.time = some now)
    (hentries : entries
      = qsort ((dir.dirents.filter (fun d => decide (d.data.head? ≠ some '.'))).map
          (read_entry sys))
          (dir.dirents.filter (fun d => decide (d.data.head? ≠ some '.'))).length
          (entry_cmp sys.strcoll))
    (hl : l = compute_layout sys now entries) :
    (main sys S_BLKSIZE argc).1 = EXIT_SUCCESS ∧
    (main sys S_BLKSIZE argc).2.length = entries.length + 1 ∧
    ∀ (j : Nat) (e : directory_entry), entries[j]? = some e → sys.lstat e.name = none →
      (main sys S_BLKSIZE argc).2[j + 1]?
        = some (some ("??????????" ++ " " ++ pad_left l.nlink_column_width "0" ++ " "
            ++ pad_left l.max_uid_name "?" ++ " " ++ pad_left l.max_gid_name "?" ++ " "
            ++ pad_left l.size_column_width "0" ++ " "
            ++ pad_left l.mtime_column_width "?" ++ " " ++ e.name ++ "\n")) := by
  have hro := read_loop_spec sys halloc dir.dirents 0 0 directory_entries_init
  have hrd : directory_entries_read sys directory_entries_init
      = (true,
          { n := (dir.dirents.filter (fun d => decide (d.data.head? ≠ some '.'))).length,
            entries := (dir.dirents.filter (fun d => decide (d.data.head? ≠ some '.'))).map
              (read_entry sys) }) := by
    unfold directory_entries_read directory_entries_read_open
    rw [hopen]
    simp only [hclose, hread, Bool.not_true, Bool.false_eq_true, if_false]
    have h0 : directory_entries_init.n = 0 := rfl
    rw [h0, hro]
    simp [directory_entries_init]
  have hmain : main sys S_BLKSIZE argc = (EXIT_SUCCESS, list_entries sys S_BLKSIZE now entries) := by
    unfold main
    rw [if_neg (by omega), hrd]
    simp only []
    rw [← hentries, prepare_ok sys entries now hmain htime]
    rfl
  rw [hmain]
  refine ⟨rfl, list_entries_length _ _ _ _, ?_⟩
  intro j e he hlstat
  have hmem : e ∈ (dir.dirents.filter (fun d => decide (d.data.head? ≠ some '.'))).map
      (read_entry sys) := by
    have h1 : e ∈ entries := List.getElem?_mem he
    rw [hentries] at h1
    exact (qsort_perm _ _ _).mem_iff.mp h1
  obtain ⟨d, _, hd⟩ := List.mem_map.mp hmem
  have hname : e.name = d := by rw [← hd, read_entry_name]
  rw [hname] at hlstat ⊢
  have hfail : e = { stat := stat_zero, stat_ok := false, is_dir := false, name := d } := by
    rw [← hd]
    exact read_entry_failed sys d hlstat
  obtain ⟨b, hb⟩ := list_entries_line sys S_BLKSIZE now entries j e he
  have hmt := layout_mtime sys now entries j e he
  have hmtext : mtime_text sys now e = "?" := by
    rw [hfail]; rfl
  rw [← hl, hmtext] at hmt
  have hrow : (render_entry sys l j e b).2
      = { mode_buf := "??????????", st_nlink := 0, uid_name := some "?", gid_name := some "?",
          st_size := 0, mtime := some "?", name := d, link := none } := by
    rw [hfail, render_entry_failed, hmt]
  rw [hb, ← hl, hrow]
  have hju : fmt_ju 0 = "0" := by decide
  simp only [print_row, hju, Option.isSome_none, Bool.false_eq_true, if_false, Option.getD_none,
    String.append_empty]

/-- C6 fails as stated: where every owner and group has a name, the whole output is defined
and the line of `gone`, whose `lstat` fails, shows the link count and the size as `0`, not as
`?`. -/
theorem failed_entry_prints_zero :
    demo_sys_named.lstat "gone" = none ∧
    main demo_sys_named 512 1
      = (EXIT_SUCCESS,
          [some "total 5\n",
           some "drwxr-xr-x 2 root  root 4096 %b %e %H:%M dirA\n",
           some "-rw-r--r-- 3 user users   42   %b %e  %Y fileB\n",
           some "?????????? 0    ?     ?    0           ? gone\n",
           some "lrwxrwxrwx 1 user users    5   %b %e  %Y lnk -> fileB\n"]) ∧
    (main demo_sys_named 512 1).2[3]?
      ≠ some (some "?????????? ?    ?     ?    ?           ? gone\n") := by
  refine ⟨by decide, by decide, by decide⟩

theorem failed_entry_line_witness :
    (main demo_sys_named 512 1).1 = EXIT_SUCCESS ∧
    (main demo_sys_named 512 1).2.length = 4 + 1 ∧
    (main demo_sys_named 512 1).2[2 + 1]?
      = some (some "?????????? 0    ?     ?    0           ? gone\n") :=
  ⟨(failed_entry_line demo_sys_named 512 1
      { dirents := [".hidden", "fileB", "lnk", "gone", "dirA"], read_error := false } 1700000000
      _ _ (by decide) rfl rfl (fun _ => rfl) rfl (fun _ => rfl) rfl rfl rfl).1,
   by decide,
   (failed_entry_line demo_sys_named 512 1
      { dirents := [".hidden", "fileB", "lnk", "gone", "dirA"], read_error := false } 1700000000
      _ _ (by decide) rfl rfl (fun _ => rfl) rfl (fun _ => rfl) rfl rfl rfl).2.2 2
      (read_entry demo_sys_named "gone") (by decide) (by decide)⟩

theorem render_entry_link (sys : Sys) (l : layout) (i : Nat) (entry : directory_entry)
    (b : link_buf) (hok : entry.stat_ok = true) (hlnk : S_ISLNK entry.stat.st_mode = true) :
    (render_entry sys l i entry b).1
      = (read_into sys entry (grow_link_buf (sys.realloc_ok i) entry.stat.st_size b)).1 ∧
    (render_entry sys l i entry b).2.link
      = (read_into sys entry (grow_link_buf (sys.realloc_ok i) entry.stat.st_size b)).2 ∧
    (render_entry sys l i entry b).2.name = entry.name := by
  unfold render_entry read_link
  simp [hok, hlnk]

/-- The line printed for an entry with a successful status whose owner and group have a name
and whose `link` pointer is not `NULL`. -/
theorem print_row_link (sys : Sys) (now : Int) (entries : List directory_entry) (i : Nat)
    (entry : directory_entry) (b : link_buf) (u g t : String)
    (hentry : entries[i]? = some entry) (hok : entry.stat_ok = true)
    (hu : sys.getpwuid entry.stat.st_uid = some u) (hg : sys.getgrgid entry.stat.st_gid = some g)
    (hlink : (render_entry sys (compute_layout sys now entries) i entry b).2.link = some t) :
    print_row (compute_layout sys now entries)
        (render_entry sys (compute_layout sys now entries) i entry b).2
      = some (String.mk ((sys.strmode entry.stat.st_mode).data.take STRMODE_COLUMN_SIZE) ++ " "
          ++ pad_left (compute_layout sys now entries).nlink_column_width
              (fmt_ju entry.stat.st_nlink) ++ " "
          ++ pad_left (compute_layout sys now entries).max_uid_name u ++ " "
          ++ pad_left (compute_layout sys now entries).max_gid_name g ++ " "
          ++ pad_left (compute_layout sys now entries).size_column_width
              (fmt_ju entry.stat.st_size) ++ " "
          ++ pad_left (compute_layout sys now entries).mtime_column_width
              (mtime_text sys now entry) ++ " "
          ++ entry.name ++ " -> " ++ t ++ "\n") := by
  have hmem : entry ∈ entries := List.getElem?_mem hentry
  have huid := (uid_name_of_ok sys now entries entry hmem hok).trans hu
  have hgid := (gid_name_of_ok sys now entries entry hmem hok).trans hg
  have hmt := layout_mtime sys now entries i entry hentry
  have hlink2 : (read_link sys (sys.realloc_ok i) entry b).2 = some t := hlink
  have hrow : (render_entry sys (compute_layout sys now entries) i entry b).2
      = { mode_buf :=
            if entry.stat_ok
            then String.mk ((sys.strmode entry.stat.st_mode).data.take STRMODE_COLUMN_SIZE)
            else String.mk (List.replicate STRMODE_COLUMN_SIZE '?'),
          st_nlink := entry.stat.st_nlink,
          uid_name := lookup_name entry.stat_ok entry.stat.st_uid
            (compute_layout sys now entries).uids (compute_layout sys now entries).n_uids
            (compute_layout sys now entries).uid_names uid_cmp,
          gid_name := lookup_name entry.stat_ok entry.stat.st_gid
            (compute_layout sys now entries).gids (compute_layout sys now entries).n_gids
            (compute_layout sys now entries).gid_names gid_cmp,
          st_size := entry.stat.st_size,
          mtime := (compute_layout sys now entries).mtimes[i]?,
          name := entry.name,
          link := (read_link sys (sys.realloc_ok i) entry b).2 } := rfl
  rw [hrow, huid, hgid, hmt, hlink2]
  simp only [print_row, hok, if_true, Option.isSome_some, Option.getD_some]

/-- C9: for a symbolic link with a successful status and reported size `s`, reached after any
sequence of entries.  When the capacity exceeds `s` or the growth succeeds, `readlink` is given
room for at least `s` bytes, the terminator goes to an index below the capacity, and the bytes
read are the target: the line printed ends with the name, ` -> ` and these bytes.  When the
capacity is at most `s` and the growth fails, the buffer and capacity are unchanged and the
line printed ends with ` -> ?`.  In both cases the loop goes on with the next entry and the
capacity never decreases.  (The lines are those of an entry whose owner and group have a
name.) -/
theorem link_target_spec (sys : Sys) (now : Int) (l : layout)
    (before after : List directory_entry) (entry : directory_entry) (b : link_buf)
    (hl : l = compute_layout sys now (before ++ entry :: after))
    (hb : b = (render_loop sys l 0 before link_buf_init).2)
    (hok : entry.stat_ok = true) (hlnk : S_ISLNK entry.stat.st_mode = true)
    (hcontract : ∀ name bufsiz r, sys.readlink name bufsiz = some r →
      r.length ≤ bufsiz ∧ ∀ c ∈ r.data, c ≠ Char.ofNat 0) :
    (render_loop sys l 0 (before ++ entry :: after) link_buf_init).1
      = (render_loop sys l 0 before link_buf_init).1
        ++ (render_entry sys l before.length entry b).2
          :: (render_loop sys l (before.length + 1) after
                (render_entry sys l before.length entry b).1).1 ∧
    b.readlink_buf_capacity
      ≤ (render_entry sys l before.length entry b).1.readlink_buf_capacity ∧
    (render_entry sys l before.length entry b).1.readlink_buf_capacity
      ≤ (render_loop sys l 0 (before ++ entry :: after) link_buf_init).2.readlink_buf_capacity ∧
    ((entry.stat.st_size < b.readlink_buf_capacity ∨ sys.realloc_ok before.length = true) →
      entry.stat.st_size
        ≤ (render_entry sys l before.length entry b).1.readlink_buf_capacity - 1 ∧
      ∀ t : String,
        sys.readlink entry.name
          ((render_entry sys l before.length entry b).1.readlink_buf_capacity - 1) = some t →
        t.length < (render_entry sys l before.length entry b).1.readlink_buf_capacity ∧
        (render_entry sys l before.length entry b).1.readlink_buf[t.length]?
          = some (Char.ofNat 0) ∧
        (render_entry sys l before.length entry b).2.link = some t ∧
        ∀ u g : String, sys.getpwuid entry.stat.st_uid = some u →
          sys.getgrgid entry.stat.st_gid = some g →
          print_row l (render_entry sys l before.length entry b).2
            = some (String.mk ((sys.strmode entry.stat.st_mode).data.take STRMODE_COLUMN_SIZE)
                ++ " " ++ pad_left l.nlink_column_width (fmt_ju entry.stat.st_nlink) ++ " "
                ++ pad_left l.max_uid_name u ++ " " ++ pad_left l.max_gid_name g ++ " "
                ++ pad_left l.size_column_width (fmt_ju entry.stat.st_size) ++ " "
                ++ pad_left l.mtime_column_width (mtime_text sys now entry) ++ " "
                ++ entry.name ++ " -> " ++ t ++ "\n")) ∧
    ((b.readlink_buf_capacity ≤ entry.stat.st_size ∧ sys.realloc_ok before.length = false) →
      (render_entry sys l before.length entry b).1 = b ∧
      (render_entry sys l before.length entry b).2.link = some "?" ∧
      ∀ u g : String, sys.getpwuid entry.stat.st_uid = some u →
        sys.getgrgid entry.stat.st_gid = some g →
        print_row l (render_entry sys l before.length entry b).2
          = some (String.mk ((sys.strmode entry.stat.st_mode).data.take STRMODE_COLUMN_SIZE)
              ++ " " ++ pad_left l.nlink_column_width (fmt_ju entry.stat.st_nlink) ++ " "
              ++ pad_left l.max_uid_name u ++ " " ++ pad_left l.max_gid_name g ++ " "
              ++ pad_left l.size_column_width (fmt_ju entry.stat.st_size) ++ " "
              ++ pad_left l.mtime_column_width (mtime_text sys now entry) ++ " "
              ++ entry.name ++ " -> " ++ "?" ++ "\n")) := by
  have hinv : b.readlink_buf.length = b.readlink_buf_capacity := by
    rw [hb]
    exact render_loop_length sys l (fun n s r h => (hcontract n s r h).1) before 0 link_buf_init rfl
  have hentry : (before ++ entry :: after)[before.length]? = some entry := by
    rw [List.getElem?_append_right (le_refl _), Nat.sub_self]
    simp
  obtain ⟨hr1, hr2, _⟩ := render_entry_link sys l before.length entry b hok hlnk
  have happ := render_loop_append sys l before 0 link_buf_init (entry :: after)
  rw [render_loop_cons, ← hb, Nat.zero_add] at happ
  have hcapg := grow_link_buf_capacity_le (sys.realloc_ok before.length) entry.stat.st_size b
  have hleng := grow_link_buf_length (sys.realloc_ok before.length) entry.stat.st_size b hinv
  have hcap1 : (render_entry sys l before.length entry b).1.readlink_buf_capacity
      = (grow_link_buf (sys.realloc_ok before.length) entry.stat.st_size b).readlink_buf_capacity := by
    rw [hr1, read_into_capacity]
  refine ⟨?_, ?_, ?_, ?_, ?_⟩
  · rw [happ]
  · rw [hcap1]; exact hcapg
  · rw [happ]
    exact render_loop_capacity_le sys l after _ _
  · intro hroom
    have hgt := grow_link_buf_room (sys.realloc_ok before.length) entry.stat.st_size b hroom
    rw [hcap1]
    refine ⟨by omega, ?_⟩
    intro t ht
    obtain ⟨htlen, htnul⟩ := hcontract _ _ _ ht
    have hlt : t.length
        < (grow_link_buf (sys.realloc_ok before.length) entry.stat.st_size b).readlink_buf.length := by
      omega
    have hread : read_into sys entry
        (grow_link_buf (sys.realloc_ok before.length) entry.stat.st_size b)
        = ({ readlink_buf := (store_bytes (grow_link_buf (sys.realloc_ok before.length)
                entry.stat.st_size b).readlink_buf t).set t.length (Char.ofNat 0)
             readlink_buf_capacity := (grow_link_buf (sys.realloc_ok before.length)
                entry.stat.st_size b).readlink_buf_capacity },
            some t) := by
      unfold read_into
      rw [if_pos hgt, ht]
      simp only
      rw [c_str_stored _ t hlt htnul]
    have hlink : (render_entry sys l before.length entry b).2.link = some t := by
      rw [hr2, hread]
    refine ⟨by omega, ?_, hlink, ?_⟩
    · rw [hr1, hread]
      simp only
      rw [stored_bytes_terminated _ t hlt]
      have h1 : t.data.length = t.length := rfl
      rw [List.getElem?_append_right (by omega), h1, Nat.sub_self]
      simp
    · intro u g hu hg
      subst hl
      exact print_row_link sys now _ _ entry b u g t hentry hok hu hg hlink
  · intro hfail
    obtain ⟨hle, hfalse⟩ := hfail
    have hread : read_into sys entry b = (b, some "?") := by
      unfold read_into
      rw [if_neg (by omega)]
    have hlink : (render_entry sys l before.length entry b).2.link = some "?" := by
      rw [hr2, hfalse, grow_link_buf_failed, hread]
    refine ⟨?_, hlink, ?_⟩
    · rw [hr1, hfalse, grow_link_buf_failed, hread]
    · intro u g hu hg
      subst hl
      exact print_row_link sys now _ _ entry b u g "?" hentry hok hu hg hlink

theorem demo_readlink_contract (name : String) (bufsiz : Nat) (r : String)
    (h : demo_sys.readlink name bufsiz = some r) :
    r.length ≤ bufsiz ∧ ∀ c ∈ r.data, c ≠ Char.ofNat 0 := by
  unfold demo_sys at h
  simp only at h
  split_ifs at h
  simp only [Option.some.injEq] at h
  subst h
  constructor
  · exact List.length_take_le _ _
  · intro c hc
    have hmem : c ∈ "fileB".data := List.mem_of_mem_take hc
    intro h0
    rw [h0] at hmem
    revert hmem
    decide

theorem link_target_spec_witness :
    demo_sys_named.getpwuid (read_entry demo_sys_named "lnk").stat.st_uid = some "user" ∧
    demo_sys_named.getgrgid (read_entry demo_sys_named "lnk").stat.st_gid = some "users" ∧
    demo_sys_named.readlink "lnk" 5 = some "fileB" ∧
    (render_entry demo_sys_named
        (compute_layout demo_sys_named 1700000000
          [read_entry demo_sys_named "dirA", read_entry demo_sys_named "lnk"])
        1 (read_entry demo_sys_named "lnk") link_buf_init).1.readlink_buf_capacity = 6 ∧
    print_row
        (compute_layout demo_sys_named 1700000000
          [read_entry demo_sys_named "dirA", read_entry demo_sys_named "lnk"])
        (render_entry demo_sys_named
          (compute_layout demo_sys_named 1700000000
            [read_entry demo_sys_named "dirA", read_entry demo_sys_named "lnk"])
          1 (read_entry demo_sys_named "lnk") link_buf_init).2
      = some "lrwxrwxrwx 1 user users    5   %b %e  %Y lnk -> fileB\n" ∧
    print_row
        (compute_layout demo_sys_no_realloc 1700000000
          [read_entry demo_sys_no_realloc "dirA", read_entry demo_sys_no_realloc "lnk"])
        (render_entry demo_sys_no_realloc
          (compute_layout demo_sys_no_realloc 1700000000
            [read_entry demo_sys_no_realloc "dirA", read_entry demo_sys_no_realloc "lnk"])
          1 (read_entry demo_sys_no_realloc "lnk") link_buf_init).2
      = some "lrwxrwxrwx 1 user users    5   %b %e  %Y lnk -> ?\n" :=
  ⟨by decide, by decide, by decide, by decide,
    ((link_target_spec demo_sys_named 1700000000 _ [read_entry demo_sys_named "dirA"] []
      (read_entry demo_sys_named "lnk") link_buf_init rfl (by decide) (by decide) (by decide)
      demo_readlink_contract).2.2.2.1 (Or.inr (by decide))).2 "fileB" (by decide)
      |>.2.2.2 "user" "users" (by decide) (by decide),
    ((link_target_spec demo_sys_no_realloc 1700000000 _ [read_entry demo_sys_no_realloc "dirA"] []
      (read_entry demo_sys_no_realloc "lnk") link_buf_init rfl (by decide) (by decide)
      (by decide) demo_readlink_contract).2.2.2.2 ⟨by decide, by decide⟩).2.2
      "user" "users" (by decide) (by decide)⟩

/-! ## Theorems about unresolved identifiers and the column widths -/

theorem print_row_null (l : layout) (r : row) (h : r.uid_name = none ∨ r.gid_name = none) :
    print_row l r = none := by
  unfold print_row
  rcases h with h | h
  · rw [h]
  · rw [h]
    cases r.uid_name <;> rfl

/-- For an entry with a successful status whose owner (resp. group) has no name, the pointer
given to `fprintf` is the `NULL` left in the name slot, and the line is undefined. -/
theorem unresolved_name_is_null (sys : Sys) (now : Int) (entries : List directory_entry)
    (e : directory_entry) (he : e ∈ entries) (hok : e.stat_ok = true) (i : Nat) (b : link_buf) :
    (sys.getpwuid e.stat.st_uid = none →
      (render_entry sys (compute_layout sys now entries) i e b).2.uid_name = none ∧
      print_row (compute_layout sys now entries)
        (render_entry sys (compute_layout sys now entries) i e b).2 = none) ∧
    (sys.getgrgid e.stat.st_gid = none →
      (render_entry sys (compute_layout sys now entries) i e b).2.gid_name = none ∧
      print_row (compute_layout sys now entries)
        (render_entry sys (compute_layout sys now entries) i e b).2 = none) := by
  have hu : (render_entry sys (compute_layout sys now entries) i e b).2.uid_name
      = sys.getpwuid e.stat.st_uid := uid_name_of_ok sys now entries e he hok
  have hg : (render_entry sys (compute_layout sys now entries) i e b).2.gid_name
      = sys.getgrgid e.stat.st_gid := gid_name_of_ok sys now entries e he hok
  constructor
  · intro h
    rw [h] at hu
    exact ⟨hu, print_row_null _ _ (Or.inl hu)⟩
  · intro h
    rw [h] at hg
    exact ⟨hg, print_row_null _ _ (Or.inr hg)⟩

/-- The width a resolution loop returns: the longest resolved name, at least `1`. -/
theorem resolve_names_snd (lookup : Nat → Option String) (ids : List Nat) (n : Nat) :
    (resolve_names lookup ids n).2
      = (((ids.take n).filterMap lookup).map String.length).foldl max 1 := by
  unfold resolve_names
  generalize ids.take n = xs
  have h : ∀ acc : List (Option String) × Nat,
      (xs.foldl (resolve_step lookup) acc).2
        = ((xs.filterMap lookup).map String.length).foldl max acc.2 := by
    induction xs with
    | nil => intro acc; simp
    | cons x rest ih =>
      intro acc
      rw [List.foldl_cons, ih]
      unfold resolve_step
      cases hx : lookup x with
      | none => simp [List.filterMap_cons, hx]
      | some name =>
        simp only [List.filterMap_cons, hx, List.map_cons, List.foldl_cons]
        congr 1
        split_ifs with hlt
        · exact (Nat.max_eq_right (le_of_lt hlt)).symm
        · exact (Nat.max_eq_left (by omega)).symm
  exact h ([], 1)

/-- C8 on the demonstration directory: `fileB` has a successful status and owner `1000`, which
has no password entry; its owner argument is `NULL`, not `?`, and its line is undefined, while
`max_uid_name` counts the resolved name `root` only. -/
theorem unresolved_owner_eval :
    demo_sorted.map (fun e => e.name) = ["dirA", "fileB", "gone", "lnk"] ∧
    demo_sorted[1]? = some (read_entry demo_sys "fileB") ∧
    (read_entry demo_sys "fileB").stat_ok = true ∧
    (read_entry demo_sys "fileB").stat.st_uid = 1000 ∧
    demo_sys.getpwuid 1000 = none ∧
    (render_entry demo_sys (compute_layout demo_sys 1700000000 demo_sorted) 1
        (read_entry demo_sys "fileB") link_buf_init).2.uid_name = none ∧
    (render_entry demo_sys (compute_layout demo_sys 1700000000 demo_sorted) 1
        (read_entry demo_sys "fileB") link_buf_init).2.uid_name ≠ some "?" ∧
    (compute_layout demo_sys 1700000000 demo_sorted).max_uid_name = 4 ∧
    (main demo_sys 512 1).2[2]? = some none := by
  refine ⟨by decide, by decide, by decide, by decide, by decide, by decide, by decide,
    by decide, by decide⟩

/-- C5 on a directory with the single file `fileB` whose owner and group have no name: both
name columns have width `1`, the arguments printed in them are `NULL`, and the line is
undefined. -/
theorem name_width_eval :
    (compute_layout demo_sys_anonymous 1700000000 [read_entry demo_sys_anonymous "fileB"]).max_uid_name
      = 1 ∧
    (compute_layout demo_sys_anonymous 1700000000 [read_entry demo_sys_anonymous "fileB"]).max_gid_name
      = 1 ∧
    (render_entry demo_sys_anonymous
        (compute_layout demo_sys_anonymous 1700000000 [read_entry demo_sys_anonymous "fileB"])
        0 (read_entry demo_sys_anonymous "fileB") link_buf_init).2.uid_name = none ∧
    (render_entry demo_sys_anonymous
        (compute_layout demo_sys_anonymous 1700000000 [read_entry demo_sys_anonymous "fileB"])
        0 (read_entry demo_sys_anonymous "fileB") link_buf_init).2.gid_name = none ∧
    main demo_sys_anonymous 512 1 = (EXIT_SUCCESS, [some "total 1\n", none]) := by
  refine ⟨by decide, by decide, by decide, by decide, by decide⟩

theorem foldl_max_spec (xs : List Nat) :
    ∀ a : Nat, a ≤ xs.foldl max a ∧ (∀ x ∈ xs, x ≤ xs.foldl max a) ∧
      (xs.foldl max a = a ∨ xs.foldl max a ∈ xs) := by
  induction xs with
  | nil => intro a; simp
  | cons x rest ih =>
    intro a
    obtain ⟨h1, h2, h3⟩ := ih (max a x)
    rw [List.foldl_cons]
    refine ⟨le_trans (le_max_left a x) h1, ?_, ?_⟩
    · intro y hy
      rcases List.mem_cons.mp hy with rfl | hy
      · exact le_trans (le_max_right a y) h1
      · exact h2 y hy
    · rcases h3 with h3 | h3
      · rw [h3]
        rcases le_total a x with hax | hxa
        · right; rw [max_eq_right hax]; exact List.mem_cons_self _ _
        · left; exact max_eq_left hxa
      · right; exact List.mem_cons_of_mem _ h3

theorem foldl_max_unique (xs : List Nat) (a m : Nat) (h1 : a ≤ m) (h2 : ∀ x ∈ xs, x ≤ m)
    (h3 : m = a ∨ m ∈ xs) : xs.foldl max a = m := by
  obtain ⟨g1, g2, g3⟩ := foldl_max_spec xs a
  apply le_antisymm
  · rcases g3 with g3 | g3
    · rw [g3]; exact h1
    · exact h2 _ g3
  · rcases h3 with h3 | h3
    · rw [h3]; exact g1
    · exact g2 _ h3

/-- Two lists have the same running maximum above `a` when each element of one is at most `a`
or occurs in the other. -/
theorem foldl_max_congr (xs ys : List Nat) (a : Nat) (hxy : ∀ x ∈ xs, x ≤ a ∨ x ∈ ys)
    (hyx : ∀ y ∈ ys, y ≤ a ∨ y ∈ xs) : xs.foldl max a = ys.foldl max a := by
  obtain ⟨g1, g2, g3⟩ := foldl_max_spec ys a
  apply foldl_max_unique xs a _ g1
  · intro x hx
    rcases hxy x hx with h | h
    · exact le_trans h g1
    · exact g2 x h
  · rcases g3 with g3 | g3
    · exact Or.inl g3
    · rcases hyx _ g3 with h | h
      · exact Or.inl (le_antisymm h g1)
      · exact Or.inr h

theorem scan_foldl_widths (sys : Sys) (now : Int) (entries : List directory_entry) :
    ∀ s : scan_state,
      (entries.foldl (scan_entry sys now) s).nlink_column_width
        = ((entries.filter (fun e => e.stat_ok)).map
            (fun e => (fmt_ju e.stat.st_nlink).length)).foldl max s.nlink_column_width ∧
      (entries.foldl (scan_entry sys now) s).size_column_width
        = ((entries.filter (fun e => e.stat_ok)).map
            (fun e => (fmt_ju e.stat.st_size).length)).foldl max s.size_column_width ∧
      (entries.foldl (scan_entry sys now) s).mtime_column_width
        = (entries.map (fun e => (mtime_text sys now e).length)).foldl max
            s.mtime_column_width := by
  induction entries with
  | nil => intro s; simp
  | cons e rest ih =>
    intro s
    obtain ⟨h1, h2, h3⟩ := ih (scan_entry sys now s e)
    rw [List.foldl_cons, h1, h2, h3]
    have hmax : ∀ a b : Nat, (if b > a then b else a) = max a b := by
      intro a b
      split_ifs with h
      · exact (max_eq_right (le_of_lt h)).symm
      · exact (max_eq_left (by omega)).symm
    unfold scan_entry
    cases h : e.stat_ok <;> simp [h, hmax]

/-- The identifiers kept by `qsort` and `unique` are those of the list. -/
theorem table_ids_mem {cmp : Nat → Nat → Int} (hcmp : cmp_consistent cmp)
    (heq : ∀ a b, cmp a b = 0 ↔ a = b) (ids : List Nat) (key : Nat) :
    key ∈ (unique (qsort ids ids.length cmp) ids.length 4 cmp).2.take
        (unique (qsort ids ids.length cmp) ids.length 4 cmp).1 ↔ key ∈ ids := by
  have hlen : (qsort ids ids.length cmp).length = ids.length := qsort_length _ _ _
  have hsorted : ((qsort ids ids.length cmp).take ids.length).Pairwise (fun a b => cmp a b ≤ 0) :=
    qsort_sorted hcmp.to_total_preorder ids ids.length (le_refl _)
  obtain ⟨_, _, hsub, hcover, _⟩ := unique_sorted_core (qsort ids ids.length cmp) ids.length 4
    cmp (by decide) (le_of_eq hlen.symm) hcmp hsorted
  rw [List.take_of_length_le (le_of_eq hlen)] at hsub hcover
  constructor
  · intro h
    exact (qsort_perm ids ids.length cmp).mem_iff.mp (hsub.subset h)
  · intro h
    obtain ⟨y, hy, hyk⟩ := hcover key ((qsort_perm ids ids.length cmp).mem_iff.mpr h)
    rw [(heq y key).mp hyk] at hy
    exact hy

/-- The width of a name column when every identifier of a successful entry has a name: the
longest text printed in the column, at least `1`. -/
theorem name_width_resolved {cmp : Nat → Nat → Int} (hcmp : cmp_consistent cmp)
    (heq : ∀ a b, cmp a b = 0 ↔ a = b) (lookup : Nat → Option String)
    (entries : List directory_entry) (id_of : directory_entry → Nat) :
    (resolve_names lookup
        (unique (qsort ((entries.filter (fun e => e.stat_ok)).map id_of)
          ((entries.filter (fun e => e.stat_ok)).map id_of).length cmp)
          ((entries.filter (fun e => e.stat_ok)).map id_of).length 4 cmp).2
        (unique (qsort ((entries.filter (fun e => e.stat_ok)).map id_of)
          ((entries.filter (fun e => e.stat_ok)).map id_of).length cmp)
          ((entries.filter (fun e => e.stat_ok)).map id_of).length 4 cmp).1).2
      = (entries.map (fun e =>
          (if e.stat_ok then (lookup (id_of e)).getD "?" else "?").length)).foldl max 1 := by
  rw [resolve_names_snd]
  apply foldl_max_congr
  · intro x hx
    obtain ⟨name, hname, rfl⟩ := List.mem_map.mp hx
    obtain ⟨id, hid, hlk⟩ := List.mem_filterMap.mp hname
    have hid2 := (table_ids_mem hcmp heq _ id).mp hid
    obtain ⟨e, he, rfl⟩ := List.mem_map.mp hid2
    obtain ⟨he1, he2⟩ := List.mem_filter.mp he
    right
    refine List.mem_map.mpr ⟨e, he1, ?_⟩
    simp only [he2, if_true, hlk, Option.getD_some]
  · intro y hy
    obtain ⟨e, he, rfl⟩ := List.mem_map.mp hy
    cases hok : e.stat_ok
    · left; simp; decide
    · cases hlk : lookup (id_of e) with
      | none => left; simp; decide
      | some name =>
        right
        simp only [if_true, Option.getD_some]
        refine List.mem_map.mpr ⟨name, ?_, rfl⟩
        refine List.mem_filterMap.mpr ⟨id_of e, ?_, hlk⟩
        exact (table_ids_mem hcmp heq _ _).mpr
          (List.mem_map.mpr ⟨e, List.mem_filter.mpr ⟨he, hok⟩, rfl⟩)

/-- Column widths (the part of C5 the code satisfies): for entries whose failed status is
zeroed, the link count, size and time widths are the longest text printed in their column, at
least `1`; the owner and group widths are the longest resolved name or `?` printed, at least
`1`, an unresolved name of a successful entry (printed from a `NULL` pointer) counting as
`?`. -/
theorem column_widths_spec (sys : Sys) (now : Int) (entries : List directory_entry)
    (hwf : ∀ e ∈ entries, e.stat_ok = false → e.stat = stat_zero) :
    (compute_layout sys now entries).nlink_column_width
      = (entries.map (fun e => (fmt_ju e.stat.st_nlink).length)).foldl max 1 ∧
    (compute_layout sys now entries).size_column_width
      = (entries.map (fun e => (fmt_ju e.stat.st_size).length)).foldl max 1 ∧
    (compute_layout sys now entries).mtime_column_width
      = (entries.map (fun e => (mtime_text sys now e).length)).foldl max 1 ∧
    (compute_layout sys now entries).max_uid_name
      = (entries.map (fun e =>
          (if e.stat_ok then (sys.getpwuid e.stat.st_uid).getD "?" else "?").length)).foldl
            max 1 ∧
    (compute_layout sys now entries).max_gid_name
      = (entries.map (fun e =>
          (if e.stat_ok then (sys.getgrgid e.stat.st_gid).getD "?" else "?").length)).foldl
            max 1 ∧
    1 ≤ (compute_layout sys now entries).nlink_column_width ∧
    1 ≤ (compute_layout sys now entries).size_column_width ∧
    1 ≤ (compute_layout sys now entries).mtime_column_width ∧
    1 ≤ (compute_layout sys now entries).max_uid_name ∧
    1 ≤ (compute_layout sys now entries).max_gid_name := by
  obtain ⟨w1, w2, w3⟩ := scan_foldl_widths sys now entries scan_init
  obtain ⟨u1, u2, _, u4⟩ := compute_layout_uid_table sys now entries
  obtain ⟨g1, g2, _, g4⟩ := compute_layout_gid_table sys now entries
  have hzero : (fmt_ju 0).length = 1 := by decide
  have h1 : (compute_layout sys now entries).nlink_column_width
      = (entries.map (fun e => (fmt_ju e.stat.st_nlink).length)).foldl max 1 := by
    show (scan_entries sys now entries).nlink_column_width = _
    unfold scan_entries
    rw [w1]
    apply foldl_max_congr
    · intro x hx
      obtain ⟨e, he, rfl⟩ := List.mem_map.mp hx
      exact Or.inr (List.mem_map.mpr ⟨e, (List.mem_filter.mp he).1, rfl⟩)
    · intro y hy
      obtain ⟨e, he, rfl⟩ := List.mem_map.mp hy
      cases hok : e.stat_ok
      · left
        rw [hwf e he hok]
        exact le_of_eq hzero
      · exact Or.inr (List.mem_map.mpr ⟨e, List.mem_filter.mpr ⟨he, hok⟩, rfl⟩)
  have h2 : (compute_layout sys now entries).size_column_width
      = (entries.map (fun e => (fmt_ju e.stat.st_size).length)).foldl max 1 := by
    show (scan_entries sys now entries).size_column_width = _
    unfold scan_entries
    rw [w2]
    apply foldl_max_congr
    · intro x hx
      obtain ⟨e, he, rfl⟩ := List.mem_map.mp hx
      exact Or.inr (List.mem_map.mpr ⟨e, (List.mem_filter.mp he).1, rfl⟩)
    · intro y hy
      obtain ⟨e, he, rfl⟩ := List.mem_map.mp hy
      cases hok : e.stat_ok
      · left
        rw [hwf e he hok]
        exact le_of_eq hzero
      · exact Or.inr (List.mem_map.mpr ⟨e, List.mem_filter.mpr ⟨he, hok⟩, rfl⟩)
  have h3 : (compute_layout sys now entries).mtime_column_width
      = (entries.map (fun e => (mtime_text sys now e).length)).foldl max 1 := by
    show (scan_entries sys now entries).mtime_column_width = _
    unfold scan_entries
    rw [w3]
    rfl
  have h4 : (compute_layout sys now entries).max_uid_name
      = (entries.map (fun e =>
          (if e.stat_ok then (sys.getpwuid e.stat.st_uid).getD "?" else "?").length)).foldl
            max 1 := by
    rw [u4, u1, u2]
    exact name_width_resolved uid_cmp_consistent uid_cmp_eq_zero sys.getpwuid entries
      (fun e => e.stat.st_uid)
  have h5 : (compute_layout sys now entries).max_gid_name
      = (entries.map (fun e =>
          (if e.stat_ok then (sys.getgrgid e.stat.st_gid).getD "?" else "?").length)).foldl
            max 1 := by
    rw [g4, g1, g2]
    exact name_width_resolved gid_cmp_consistent gid_cmp_eq_zero sys.getgrgid entries
      (fun e => e.stat.st_gid)
  refine ⟨h1, h2, h3, h4, h5, ?_, ?_, ?_, ?_, ?_⟩
  · rw [h1]; exact (foldl_max_spec _ 1).1
  · rw [h2]; exact (foldl_max_spec _ 1).1
  · rw [h3]; exact (foldl_max_spec _ 1).1
  · rw [h4]; exact (foldl_max_spec _ 1).1
  · rw [h5]; exact (foldl_max_spec _ 1).1

end LsL
